import Mathlib

/-!
Verification of the tape/queuing and measurement-process layer of a
quantum-circuit recording library.  The measurement-process definitions are
shallow embeddings of `pennylane/measurements.py`; the quantum-tape
definitions are modelled from the specification (the tape module itself is
not part of the source tree, only its tests are), with the in-tree tests of
`tests/tape/test_tape.py` fixing the behaviour wherever they speak.
-/

/-- Wire labels.  The source allows arbitrary hashable labels; natural
numbers suffice for the model. -/
abbrev WireLabel := Nat

/-- A circuit parameter: a scalar or a flat array (for example the entries of
a Hermitian matrix).  An array argument occupies a single parameter slot.
Scalars of rotation gates are measured in units of pi, so that the source's
`d % (2*np.pi)` canonicalisation becomes `q mod 2` on exact rationals. -/
inductive Param where
  | scalar (q : ℚ)
  | array (qs : List ℚ)
deriving DecidableEq, Repr

/-- The `ObservableReturnTypes` enumeration of `measurements.py`. -/
inductive ObservableReturnTypes where
  | Sample
  | Variance
  | Expectation
  | Probability
  | State
  | MidMeasure
deriving DecidableEq, Repr

/-- The external operation contract (spec section 2): a name, ordered wires,
ordered parameter data and an inversion flag. -/
structure Operation where
  name : String
  wires : List WireLabel
  data : List Param
  inverse : Bool
deriving DecidableEq, Repr

/-- The external observable contract: name, wires, data, and the two optional
capabilities used by `MeasurementProcess.expand`.  A `none` in `diagGates`
models an observable whose `diagonalizing_gates()` raises
`DecompositionUndefinedError`; a `none` in `eigvalsObs` models one whose
`get_eigvals()` raises `EigvalsUndefinedError`. -/
structure Obs where
  name : String
  wires : List WireLabel
  data : List Param
  diagGates : Option (List Operation)
  eigvalsObs : Option (List ℚ)
deriving DecidableEq, Repr

/-- The errors raised on the modelled code paths.  `measurements.py` treats
`DecompositionUndefinedError` and `EigvalsUndefinedError` as distinct
exceptions (it catches them separately at lines 137 and 221). -/
inductive PLError where
  | DecompositionUndefinedError
  | EigvalsUndefinedError
  | QuantumFunctionError (msg : String)
  | ValueError (msg : String)
deriving DecidableEq, Repr

/-- The `MeasurementProcess` object after construction: the return type, the
optional observable, the stored `_wires` and `_eigvals` fields, the optional
id, and the identity-imitating `name` and `data` attributes set by
`__init__`. -/
structure MeasurementProcess where
  return_type : ObservableReturnTypes
  obs : Option Obs
  wiresStored : List WireLabel
  eigvalsStored : Option (List ℚ)
  id : Option String
  name : String
  data : List Param
deriving DecidableEq, Repr

/-- `MeasurementProcess.__init__` (measurements.py lines 95-126): giving
`wires` together with an observable, or `eigvals` together with an
observable, is a `ValueError`; otherwise the fields are stored, with `_wires`
defaulting to the empty wire list and `name`/`data` imitating an identity
observable. -/
def MeasurementProcess.make (rt : ObservableReturnTypes) (obs : Option Obs)
    (wires : Option (List WireLabel)) (eigvals : Option (List ℚ))
    (id : Option String) : Except PLError MeasurementProcess :=
  if wires.isSome ∧ obs.isSome then
    .error (.ValueError "Cannot set the wires if an observable is provided.")
  else if eigvals.isSome ∧ obs.isSome then
    .error (.ValueError "Cannot set the eigenvalues if an observable is provided.")
  else
    .ok { return_type := rt, obs := obs, wiresStored := wires.getD [],
          eigvalsStored := eigvals, id := id, name := "Identity", data := [] }

/-- The `wires` property (measurements.py lines 159-164): delegate to the
observable when present, otherwise the stored wires. -/
def MeasurementProcess.wires (m : MeasurementProcess) : List WireLabel :=
  match m.obs with
  | some o => o.wires
  | none => m.wiresStored

/-- `get_eigvals` (measurements.py lines 198-224): the observable's
eigenvalues when it can supply them, silently falling back to the stored
`_eigvals` field otherwise. -/
def MeasurementProcess.get_eigvals (m : MeasurementProcess) : Option (List ℚ) :=
  match m.obs with
  | some o =>
    match o.eigvalsObs with
    | some e => some e
    | none => m.eigvalsStored
  | none => m.eigvalsStored

/-- The hash fingerprint of a measurement process (measurements.py lines
285-303).  With no observable it is built from the constant `name`
attribute, the wires, the (always empty) `data` attribute and the return
type; with an observable, from the observable's name, the wires, the
observable's data and the return type.  The Python `hash` of the tuple is
modelled by the tuple itself. -/
def MeasurementProcess.fingerprint (m : MeasurementProcess) :
    String × List WireLabel × List Param × ObservableReturnTypes :=
  match m.obs with
  | none => (m.name, m.wires, m.data, m.return_type)
  | some o => (o.name, m.wires, o.data, m.return_type)

/-- Modelled from the spec: the finalized QuantumTape (spec sections 3 and
4.3; the tape module is not in the source tree).  `prep`, `ops` and `meas`
are the partitioned queue and `trainable` the ascending duplicate-free list
of trainable parameter indices. -/
structure QuantumTape where
  prep : List Operation
  ops : List Operation
  meas : List MeasurementProcess
  trainable : List Nat
deriving DecidableEq, Repr

/-- The `operations` view of a tape: preparations followed by the general
operations. -/
def QuantumTape.operations (t : QuantumTape) : List Operation :=
  t.prep ++ t.ops

/-- The parameter slots a measurement contributes: the data of its observable
when present, otherwise its own (always empty) `data` attribute. -/
def MeasurementProcess.parData (m : MeasurementProcess) : List Param :=
  match m.obs with
  | some o => o.data
  | none => m.data

/-- The per-object parameter blocks of a tape, in `_par_info` walking order:
preparations, then operations, then measurements. -/
def QuantumTape.paramBlocks (t : QuantumTape) : List (List Param) :=
  t.prep.map Operation.data ++ t.ops.map Operation.data ++
    t.meas.map MeasurementProcess.parData

/-- All parameter values of a tape in `_par_info` order, read live from the
owning objects. -/
def QuantumTape.allParams (t : QuantumTape) : List Param :=
  t.paramBlocks.flatten

/-- `MeasurementProcess.expand` (measurements.py lines 226-268): with no
observable the decomposition is undefined; otherwise the observable's
diagonalizing gates are recorded, followed by a measurement process with no
observable carrying the observable's wires and eigenvalues, and the recorded
queue finalizes into a tape with no preparations and a fresh default
trainable set.  A missing capability surfaces as its own error. -/
def MeasurementProcess.expand (m : MeasurementProcess) :
    Except PLError QuantumTape :=
  match m.obs with
  | none => .error .DecompositionUndefinedError
  | some o =>
    match o.diagGates with
    | none => .error .DecompositionUndefinedError
    | some gates =>
      match o.eigvalsObs with
      | none => .error .EigvalsUndefinedError
      | some evs =>
        match MeasurementProcess.make m.return_type none (some o.wires) (some evs) none with
        | .error e => .error e
        | .ok mp =>
          .ok { prep := [], ops := gates, meas := [mp],
                trainable := List.range ((gates.map Operation.data).flatten.length) }

/-- `diagonalizing_gates` (measurements.py lines 128-138): the operations of
the expanded tape, with `DecompositionUndefinedError` silenced into an empty
list; any other error propagates. -/
def MeasurementProcess.diagonalizing_gates (m : MeasurementProcess) :
    Except PLError (List Operation) :=
  match m.expand with
  | .ok t => .ok t.operations
  | .error .DecompositionUndefinedError => .ok []
  | .error e => .error e

/-- The `MeasurementValue` object (measurements.py lines 639-707): the
identifier it depends on, the two outcome cases, and the control value
defaulting to the one case. -/
structure MeasurementValue where
  depends_on : String
  zero_case : ℚ
  one_case : ℚ
  control_value : ℚ
deriving DecidableEq, Repr

/-- The `measure` constructor (measurements.py lines 710-756): more than one
wire is rejected with a `QuantumFunctionError`; otherwise a MidMeasure-tagged
process carrying a fresh identifier (the truncated uuid is modelled as an
explicitly supplied string) and the wires is queued, and a MeasurementValue
bound to that identifier is returned.  The returned process is the queued
one.  The name `measure` is taken by the ambient library, hence the model
name `measureQubit`. -/
def measureQubit (measurement_id : String) (wires : List WireLabel) :
    Except PLError (MeasurementProcess × MeasurementValue) :=
  if wires.length > 1 then
    .error (.QuantumFunctionError
      "Only a single qubit can be measured in the middle of the circuit")
  else
    match MeasurementProcess.make .MidMeasure none (some wires) none (some measurement_id) with
    | .error e => .error e
    | .ok mp =>
      .ok (mp, { depends_on := measurement_id, zero_case := 0, one_case := 1,
                 control_value := 1 })

/-- The `state` constructor (measurements.py lines 538-588): a State-tagged
measurement process with no observable, no wires and no eigenvalues. -/
def state : Except PLError MeasurementProcess :=
  MeasurementProcess.make .State none none none none

/-- The predicate of claim C4: exactly one of an observable, or explicit
wires/eigenvalues, is set on a constructed measurement process. -/
def exactlyOneObsOrWE (m : MeasurementProcess) : Prop :=
  (m.obs.isSome ∧ ¬ (m.wiresStored ≠ [] ∨ m.eigvalsStored.isSome = true)) ∨
    (¬ m.obs.isSome ∧ (m.wiresStored ≠ [] ∨ m.eigvalsStored.isSome = true))

instance (m : MeasurementProcess) : Decidable (exactlyOneObsOrWE m) := by
  unfold exactlyOneObsOrWE; infer_instance

/-- The measurement process produced by `state`. -/
def stateMP : MeasurementProcess :=
  { return_type := .State, obs := none, wiresStored := [], eigvalsStored := none,
    id := none, name := "Identity", data := [] }

/-- A Pauli-Z style observable fixture: diagonal already, so no diagonalizing
gates are needed, and the eigenvalues are known. -/
def obsPauliZ : Obs :=
  { name := "PauliZ", wires := [0], data := [], diagGates := some [],
    eigvalsObs := some [1, -1] }

/-- The basis-change gate of the Hermitian fixture below. -/
def uHermitian : Operation :=
  { name := "QubitUnitary", wires := [0], data := [Param.array [1, 0, 0, 1]],
    inverse := false }

/-- A Hermitian-matrix observable fixture, as in the expand docstring of
measurements.py: one array parameter, one diagonalizing gate, eigenvalues
zero and five. -/
def obsHermitian : Obs :=
  { name := "Hermitian", wires := [0], data := [Param.array [1, 2, 2, 4]],
    diagGates := some [uHermitian], eigvalsObs := some [0, 5] }

/-- An observable that supplies neither diagonalizing gates nor eigenvalues
(for example an aggregate Hamiltonian). -/
def obsNoDiag : Obs :=
  { name := "Hamiltonian", wires := [0], data := [], diagGates := none,
    eigvalsObs := none }

/-- An observable that supplies diagonalizing gates but no eigenvalues. -/
def obsNoEig : Obs :=
  { name := "OpaqueObs", wires := [0, 1], data := [], diagGates := some [],
    eigvalsObs := none }

/-- An expectation measurement of the Hermitian fixture. -/
def mpHermitian : MeasurementProcess :=
  { return_type := .Expectation, obs := some obsHermitian, wiresStored := [],
    eigvalsStored := none, id := none, name := "Identity", data := [] }

/-- An expectation measurement of the capability-free observable. -/
def mpNoDiag : MeasurementProcess :=
  { return_type := .Expectation, obs := some obsNoDiag, wiresStored := [],
    eigvalsStored := none, id := none, name := "Identity", data := [] }

/-- A variance measurement of the observable lacking eigenvalues. -/
def mpNoEig : MeasurementProcess :=
  { return_type := .Variance, obs := some obsNoEig, wiresStored := [],
    eigvalsStored := none, id := none, name := "Identity", data := [] }

/-- The tape produced by a successful measurement expansion: the
diagonalizing gates, then a wires/eigenvalue-only measurement of the same
return type, with a fresh default trainable set. -/
def diagonalizedTape (rt : ObservableReturnTypes) (gates : List Operation)
    (ws : List WireLabel) (evs : List ℚ) : QuantumTape :=
  { prep := [], ops := gates,
    meas := [{ return_type := rt, obs := none, wiresStored := ws,
               eigvalsStored := some evs, id := none, name := "Identity", data := [] }],
    trainable := List.range ((gates.map Operation.data).flatten.length) }

lemma expand_of_obs_none (m : MeasurementProcess) (h : m.obs = none) :
    m.expand = .error .DecompositionUndefinedError := by
  unfold MeasurementProcess.expand
  rw [h]

lemma expand_of_caps (m : MeasurementProcess) (o : Obs) (gates : List Operation)
    (evs : List ℚ) (h1 : m.obs = some o) (h2 : o.diagGates = some gates)
    (h3 : o.eigvalsObs = some evs) :
    m.expand = .ok (diagonalizedTape m.return_type gates o.wires evs) := by
  unfold MeasurementProcess.expand
  rw [h1]
  simp only [h2, h3, MeasurementProcess.make, diagonalizedTape]
  simp

/-- Claim C4 (counterexample): the claim asserts every constructible
measurement process has exactly one of an observable or explicit
wires/eigenvalues, but the `state()` constructor builds a process with
neither: no observable, empty stored wires and no eigenvalues. -/
theorem C4_counterexample :
    state = .ok stateMP ∧ ¬ exactlyOneObsOrWE stateMP := by
  constructor
  · rfl
  · decide

/-- Claim C4 (amended): constructing a MeasurementProcess with both an
observable and wires, or both an observable and eigenvalues, raises an
error, so no constructible measurement process has both an observable and
explicit wires/eigenvalues — at most one of the two is set (a process such
as `state()` may have neither). -/
theorem C4_at_most_one :
    (∀ (rt : ObservableReturnTypes) (o : Obs) (w : List WireLabel)
        (e : Option (List ℚ)) (i : Option String),
        MeasurementProcess.make rt (some o) (some w) e i =
          .error (.ValueError "Cannot set the wires if an observable is provided.")) ∧
    (∀ (rt : ObservableReturnTypes) (o : Obs) (e : List ℚ) (i : Option String),
        MeasurementProcess.make rt (some o) none (some e) i =
          .error (.ValueError "Cannot set the eigenvalues if an observable is provided.")) ∧
    (∀ (rt : ObservableReturnTypes) (obs : Option Obs) (ws : Option (List WireLabel))
        (eig : Option (List ℚ)) (i : Option String) (m : MeasurementProcess),
        MeasurementProcess.make rt obs ws eig i = .ok m →
        ¬ (m.obs.isSome = true ∧ (m.wiresStored ≠ [] ∨ m.eigvalsStored.isSome = true))) := by
  refine ⟨?_, ?_, ?_⟩
  · intro rt o w e i
    simp [MeasurementProcess.make]
  · intro rt o e i
    simp [MeasurementProcess.make]
  · intro rt obs ws eig i m h
    cases obs with
    | none =>
      cases ws <;> cases eig <;>
        simp [MeasurementProcess.make] at h <;>
        simp [← h]
    | some o =>
      cases ws with
      | some w => simp [MeasurementProcess.make] at h
      | none =>
        cases eig with
        | some e => simp [MeasurementProcess.make] at h
        | none =>
          simp [MeasurementProcess.make] at h
          simp [← h]

/-- Claim C4 (witness): the amended theorem applied at concrete inputs. -/
theorem C4_at_most_one_witness :
    MeasurementProcess.make .Expectation (some obsPauliZ) (some [0]) none none =
      .error (.ValueError "Cannot set the wires if an observable is provided.") ∧
    ¬ (stateMP.obs.isSome = true ∧
        (stateMP.wiresStored ≠ [] ∨ stateMP.eigvalsStored.isSome = true)) :=
  ⟨C4_at_most_one.1 .Expectation obsPauliZ [0] none none,
   C4_at_most_one.2.2 .State none none none none stateMP rfl⟩

/-- Claim C7 (counterexample): the claim asserts every measurement process
with an observable expands to a tape, but an observable without
diagonalizing gates makes `expand` raise the no-decomposition error
instead. -/
theorem C7_counterexample :
    mpNoDiag.obs.isSome = true ∧
    MeasurementProcess.expand mpNoDiag = .error .DecompositionUndefinedError ∧
    (MeasurementProcess.expand mpNoDiag).isOk = false := by
  refine ⟨rfl, rfl, rfl⟩

/-- Claim C7 (amended): for a MeasurementProcess whose observable supplies
diagonalizing gates and eigenvalues, `expand` returns a tape whose
operations are exactly those gates, followed by a measurement process with
no observable carrying the observable's wires and eigenvalues and the same
return type; with no observable at all, `expand` raises the
no-decomposition error (an observable lacking one of the two capabilities
raises that capability's own error instead of returning a tape). -/
theorem C7_expand :
    (∀ (m : MeasurementProcess) (o : Obs) (gates : List Operation) (evs : List ℚ),
        m.obs = some o → o.diagGates = some gates → o.eigvalsObs = some evs →
        m.expand = .ok (diagonalizedTape m.return_type gates o.wires evs)) ∧
    (∀ m : MeasurementProcess, m.obs = none →
        m.expand = .error .DecompositionUndefinedError) :=
  ⟨expand_of_caps, expand_of_obs_none⟩

/-- Claim C7 (witness): the amended theorem applied to the Hermitian fixture
and to the observable-free state measurement. -/
theorem C7_expand_witness :
    MeasurementProcess.expand mpHermitian =
      .ok (diagonalizedTape .Expectation [uHermitian] [0] [0, 5]) ∧
    MeasurementProcess.expand stateMP = .error .DecompositionUndefinedError :=
  ⟨C7_expand.1 mpHermitian obsHermitian [uHermitian] [0, 5] rfl rfl rfl,
   C7_expand.2 stateMP rfl⟩

/-- Claim C10 (counterexample): `diagonalizing_gates` can raise — an
observable with diagonalizing gates but undefined eigenvalues makes the
inner `expand` raise `EigvalsUndefinedError`, which is not the
no-decomposition error and therefore propagates. -/
theorem C10_counterexample :
    MeasurementProcess.diagonalizing_gates mpNoEig = .error .EigvalsUndefinedError := by
  rfl

/-- Claim C10 (amended): `diagonalizing_gates` never propagates the
no-decomposition error: whenever `expand` raises
`DecompositionUndefinedError` — in particular for every process with no
observable — it returns the empty list, and whenever `expand` succeeds it
returns the operations of the expanded tape; only the distinct
eigenvalues-undefined error still propagates. -/
theorem C10_diagonalizing_gates :
    (∀ m : MeasurementProcess, m.expand = .error .DecompositionUndefinedError →
        m.diagonalizing_gates = .ok []) ∧
    (∀ m : MeasurementProcess, m.obs = none → m.diagonalizing_gates = .ok []) ∧
    (∀ (m : MeasurementProcess) (t : QuantumTape), m.expand = .ok t →
        m.diagonalizing_gates = .ok t.operations) := by
  refine ⟨?_, ?_, ?_⟩
  · intro m h
    unfold MeasurementProcess.diagonalizing_gates
    rw [h]
  · intro m h
    unfold MeasurementProcess.diagonalizing_gates
    rw [expand_of_obs_none m h]
  · intro m t h
    unfold MeasurementProcess.diagonalizing_gates
    rw [h]

/-- Claim C10 (witness): the amended theorem applied to the capability-free
fixture, the state measurement, and the Hermitian fixture. -/
theorem C10_diagonalizing_gates_witness :
    MeasurementProcess.diagonalizing_gates mpNoDiag = .ok [] ∧
    MeasurementProcess.diagonalizing_gates stateMP = .ok [] ∧
    MeasurementProcess.diagonalizing_gates mpHermitian = .ok [uHermitian] :=
  ⟨C10_diagonalizing_gates.1 mpNoDiag rfl,
   C10_diagonalizing_gates.2.1 stateMP rfl,
   C10_diagonalizing_gates.2.2 mpHermitian _ (expand_of_caps mpHermitian obsHermitian
     [uHermitian] [0, 5] rfl rfl rfl)⟩

/-- Claim C8 (counterexample): the claim says `measure` fails whenever not
given exactly one wire, but an empty wire list is accepted: the length
check only rejects more than one wire. -/
theorem C8_counterexample :
    ([] : List WireLabel).length ≠ 1 ∧
    measureQubit "m0" [] = .ok
      ({ return_type := .MidMeasure, obs := none, wiresStored := [],
         eigvalsStored := none, id := some "m0", name := "Identity", data := [] },
       { depends_on := "m0", zero_case := 0, one_case := 1, control_value := 1 }) := by
  refine ⟨by decide, rfl⟩

/-- Claim C8 (amended): `measure` accepts at most one wire — more than one
wire fails with a domain error, zero or one wires are accepted — and on
success it queues a MidMeasure-tagged MeasurementProcess carrying the fresh
identifier and the wires and returns a MeasurementValue whose `depends_on`
is that identifier. -/
theorem C8_measure :
    (∀ (i : String) (ws : List WireLabel), ws.length > 1 →
        measureQubit i ws = .error (.QuantumFunctionError
          "Only a single qubit can be measured in the middle of the circuit")) ∧
    (∀ (i : String) (ws : List WireLabel), ws.length ≤ 1 →
        measureQubit i ws = .ok
          ({ return_type := .MidMeasure, obs := none, wiresStored := ws,
             eigvalsStored := none, id := some i, name := "Identity", data := [] },
           { depends_on := i, zero_case := 0, one_case := 1, control_value := 1 })) := by
  constructor
  · intro i ws h
    simp [measureQubit, h]
  · intro i ws h
    have h' : ¬ ws.length > 1 := by omega
    simp [measureQubit, h', MeasurementProcess.make]

/-- Claim C8 (witness): the amended theorem applied at two and at one
wires. -/
theorem C8_measure_witness :
    measureQubit "m1" [0, 1] = .error (.QuantumFunctionError
      "Only a single qubit can be measured in the middle of the circuit") ∧
    measureQubit "m2" [1] = .ok
      ({ return_type := .MidMeasure, obs := none, wiresStored := [1],
         eigvalsStored := none, id := some "m2", name := "Identity", data := [] },
       { depends_on := "m2", zero_case := 0, one_case := 1, control_value := 1 }) :=
  ⟨C8_measure.1 "m1" [0, 1] (by decide), C8_measure.2 "m2" [1] (by decide)⟩

/-- Claim C9: two observable-less measurement processes with equal return
type and equal wires have equal hash fingerprints even when constructed
with different eigenvalue arrays — the fingerprint uses only the constant
name "Identity", the wires, the empty data list and the return type. -/
theorem C9_hash_ignores_eigvals :
    ∀ (rt : ObservableReturnTypes) (ws : List WireLabel) (e1 e2 : List ℚ)
      (m1 m2 : MeasurementProcess), e1 ≠ e2 →
      MeasurementProcess.make rt none (some ws) (some e1) none = .ok m1 →
      MeasurementProcess.make rt none (some ws) (some e2) none = .ok m2 →
      m1.fingerprint = m2.fingerprint ∧
      m1.fingerprint = ("Identity", ws, ([] : List Param), rt) := by
  intro rt ws e1 e2 m1 m2 hne h1 h2
  simp [MeasurementProcess.make] at h1 h2
  simp [← h1, ← h2, MeasurementProcess.fingerprint, MeasurementProcess.wires]

/-- Claim C9 (witness): the theorem applied to two concrete processes with
different eigenvalues. -/
theorem C9_hash_ignores_eigvals_witness :
    MeasurementProcess.fingerprint
        { return_type := .Sample, obs := none, wiresStored := [2],
          eigvalsStored := some [1, 2], id := none, name := "Identity", data := [] } =
      MeasurementProcess.fingerprint
        { return_type := .Sample, obs := none, wiresStored := [2],
          eigvalsStored := some [3], id := none, name := "Identity", data := [] } :=
  (C9_hash_ignores_eigvals .Sample [2] [1, 2] [3] _ _ (by decide) rfl rfl).1

instance {ε α : Type} [DecidableEq ε] [DecidableEq α] : DecidableEq (Except ε α) :=
  fun a b =>
  match a, b with
  | .error e1, .error e2 =>
    if h : e1 = e2 then .isTrue (by rw [h])
    else .isFalse (by intro hh; injection hh; exact h (by assumption))
  | .error _, .ok _ => .isFalse (by intro h; exact Except.noConfusion h)
  | .ok _, .error _ => .isFalse (by intro h; exact Except.noConfusion h)
  | .ok v1, .ok v2 =>
    if h : v1 = v2 then .isTrue (by rw [h])
    else .isFalse (by intro hh; injection hh; exact h (by assumption))

/-- Modelled from the spec: an item of the recording queue, already
classified by the queuing metadata as a state preparation, a general
operation, or a measurement (spec sections 3 and 4.3). -/
inductive QItem where
  | prep (o : Operation)
  | gate (o : Operation)
  | meas (m : MeasurementProcess)
deriving DecidableEq, Repr

/-- Whether a queue item is a state preparation. -/
@[simp] def QItem.isPrep : QItem → Bool
  | .prep _ => true
  | .gate _ => false
  | .meas _ => false

/-- Whether a queue item is a measurement. -/
@[simp] def QItem.isMeas : QItem → Bool
  | .prep _ => false
  | .gate _ => false
  | .meas _ => true

/-- The state preparations of a queue, in order. -/
def prepsOf (q : List QItem) : List Operation :=
  q.filterMap fun x =>
    match x with
    | .prep o => some o
    | .gate _ => none
    | .meas _ => none

/-- The general operations of a queue, in order. -/
def gatesOf (q : List QItem) : List Operation :=
  q.filterMap fun x =>
    match x with
    | .prep _ => none
    | .gate o => some o
    | .meas _ => none

/-- The measurements of a queue, in order. -/
def measOf (q : List QItem) : List MeasurementProcess :=
  q.filterMap fun x =>
    match x with
    | .prep _ => none
    | .gate _ => none
    | .meas m => some m

@[simp] lemma prepsOf_nil : prepsOf [] = [] := rfl

@[simp] lemma gatesOf_nil : gatesOf [] = [] := rfl

@[simp] lemma measOf_nil : measOf [] = [] := rfl

@[simp] lemma prepsOf_cons_prep (a : Operation) (q : List QItem) :
    prepsOf (.prep a :: q) = a :: prepsOf q := rfl

@[simp] lemma prepsOf_cons_gate (a : Operation) (q : List QItem) :
    prepsOf (.gate a :: q) = prepsOf q := rfl

@[simp] lemma prepsOf_cons_meas (a : MeasurementProcess) (q : List QItem) :
    prepsOf (.meas a :: q) = prepsOf q := rfl

@[simp] lemma gatesOf_cons_prep (a : Operation) (q : List QItem) :
    gatesOf (.prep a :: q) = gatesOf q := rfl

@[simp] lemma gatesOf_cons_gate (a : Operation) (q : List QItem) :
    gatesOf (.gate a :: q) = a :: gatesOf q := rfl

@[simp] lemma gatesOf_cons_meas (a : MeasurementProcess) (q : List QItem) :
    gatesOf (.meas a :: q) = gatesOf q := rfl

@[simp] lemma measOf_cons_prep (a : Operation) (q : List QItem) :
    measOf (.prep a :: q) = measOf q := rfl

@[simp] lemma measOf_cons_gate (a : Operation) (q : List QItem) :
    measOf (.gate a :: q) = measOf q := rfl

@[simp] lemma measOf_cons_meas (a : MeasurementProcess) (q : List QItem) :
    measOf (.meas a :: q) = a :: measOf q := rfl

/-- Modelled from the spec: the single finalization pass over the queue
(spec section 4.3), with carried accumulators for the three partitions.  A
state preparation arriving after a general operation, or any operation
arriving after a measurement, fails immediately with a recording-order
error (the messages follow tests/tape/test_tape.py lines 237-252). -/
def processQueueGo (q : List QItem) (p o : List Operation)
    (ms : List MeasurementProcess) :
    Except PLError (List Operation × List Operation × List MeasurementProcess) :=
  match q with
  | [] => .ok (p, o, ms)
  | .prep x :: rest =>
    if ms ≠ [] then
      .error (.ValueError "Quantum operations must occur prior to any measurements.")
    else if o ≠ [] then
      .error (.ValueError "State preparations must occur prior to any quantum operations.")
    else processQueueGo rest (p ++ [x]) o ms
  | .gate x :: rest =>
    if ms ≠ [] then
      .error (.ValueError "Quantum operations must occur prior to any measurements.")
    else processQueueGo rest p (o ++ [x]) ms
  | .meas x :: rest => processQueueGo rest p o (ms ++ [x])

/-- Modelled from the spec: queue partitioning at tape finalization. -/
def processQueue (q : List QItem) :
    Except PLError (List Operation × List Operation × List MeasurementProcess) :=
  processQueueGo q [] [] []

lemma go_prep_ok (a : Operation) (rest : List QItem) (p : List Operation) :
    processQueueGo (.prep a :: rest) p [] [] = processQueueGo rest (p ++ [a]) [] [] := by
  simp [processQueueGo]

lemma go_prep_err_meas (a : Operation) (rest : List QItem) (p o : List Operation)
    (ms : List MeasurementProcess) (hm : ms ≠ []) :
    processQueueGo (.prep a :: rest) p o ms =
      .error (.ValueError "Quantum operations must occur prior to any measurements.") := by
  simp [processQueueGo, hm]

lemma go_prep_err_gate (a : Operation) (rest : List QItem) (p o : List Operation)
    (ho : o ≠ []) :
    processQueueGo (.prep a :: rest) p o [] =
      .error (.ValueError "State preparations must occur prior to any quantum operations.") := by
  simp [processQueueGo, ho]

lemma go_gate_ok (a : Operation) (rest : List QItem) (p o : List Operation) :
    processQueueGo (.gate a :: rest) p o [] = processQueueGo rest p (o ++ [a]) [] := by
  simp [processQueueGo]

lemma go_gate_err (a : Operation) (rest : List QItem) (p o : List Operation)
    (ms : List MeasurementProcess) (hm : ms ≠ []) :
    processQueueGo (.gate a :: rest) p o ms =
      .error (.ValueError "Quantum operations must occur prior to any measurements.") := by
  simp [processQueueGo, hm]

lemma go_meas_red (a : MeasurementProcess) (rest : List QItem) (p o : List Operation)
    (ms : List MeasurementProcess) :
    processQueueGo (.meas a :: rest) p o ms = processQueueGo rest p o (ms ++ [a]) := rfl

/-- The recording-order relation between an earlier item `a` and a later
item `b`: if the later item is a preparation the earlier one must be too,
and if the later item is not a measurement the earlier one must not be
either. -/
def orderRel (a b : QItem) : Prop :=
  (b.isPrep = true → a.isPrep = true) ∧ (b.isMeas = false → a.isMeas = false)

instance (a b : QItem) : Decidable (orderRel a b) := by
  unfold orderRel
  infer_instance

@[simp] lemma orderRel_prep_left (a : Operation) (b : QItem) : orderRel (.prep a) b := by
  constructor <;> intro <;> rfl

@[simp] lemma orderRel_gate_left (a : Operation) (b : QItem) :
    orderRel (.gate a) b ↔ b.isPrep = false := by
  unfold orderRel
  cases b <;> simp

@[simp] lemma orderRel_meas_left (a : MeasurementProcess) (b : QItem) :
    orderRel (.meas a) b ↔ b.isMeas = true := by
  unfold orderRel
  cases b <;> simp

/-- The recording-order invariant (spec section 8): each pair of queue
positions, in order, satisfies the recording-order relation — all state
preparations precede all other operations, and everything that is not a
measurement precedes all measurements. -/
def wellOrdered (q : List QItem) : Prop :=
  List.Pairwise orderRel q

instance (q : List QItem) : Decidable (wellOrdered q) := by
  unfold wellOrdered
  infer_instance

/-- The result is one of the two recording-order errors. -/
def recordingOrderError
    (r : Except PLError (List Operation × List Operation × List MeasurementProcess)) :
    Prop :=
  r = .error (.ValueError "Quantum operations must occur prior to any measurements.") ∨
    r = .error (.ValueError "State preparations must occur prior to any quantum operations.")

instance (r : Except PLError (List Operation × List Operation × List MeasurementProcess)) :
    Decidable (recordingOrderError r) := by
  unfold recordingOrderError
  infer_instance

lemma go_ok_parts (q : List QItem) :
    ∀ p o ms r, processQueueGo q p o ms = .ok r →
      r = (p ++ prepsOf q, o ++ gatesOf q, ms ++ measOf q) := by
  induction q with
  | nil =>
    intro p o ms r h
    simp only [processQueueGo, Except.ok.injEq] at h
    simp [← h]
  | cons x rest ih =>
    intro p o ms r h
    cases x with
    | prep a =>
      rcases eq_or_ne ms [] with hm | hm
      · subst hm
        rcases eq_or_ne o [] with ho | ho
        · subst ho
          rw [go_prep_ok] at h
          have hr := ih (p ++ [a]) [] [] r h
          simp [hr]
        · rw [go_prep_err_gate a rest p o ho] at h
          exact absurd h (by simp)
      · rw [go_prep_err_meas a rest p o ms hm] at h
        exact absurd h (by simp)
    | gate a =>
      rcases eq_or_ne ms [] with hm | hm
      · subst hm
        rw [go_gate_ok] at h
        have hr := ih p (o ++ [a]) [] r h
        simp [hr]
      · rw [go_gate_err a rest p o ms hm] at h
        exact absurd h (by simp)
    | meas a =>
      rw [go_meas_red] at h
      have hr := ih p o (ms ++ [a]) r h
      simp [hr]

lemma go_ok_iff (q : List QItem) :
    ∀ p o ms, (∃ r, processQueueGo q p o ms = .ok r) ↔
      (wellOrdered q ∧ (o ≠ [] → ∀ x ∈ q, x.isPrep = false) ∧
        (ms ≠ [] → ∀ x ∈ q, x.isMeas = true)) := by
  induction q with
  | nil =>
    intro p o ms
    simp [processQueueGo, wellOrdered]
  | cons x rest ih =>
    intro p o ms
    cases x with
    | prep a =>
      rcases eq_or_ne ms [] with hm | hm
      · subst hm
        rcases eq_or_ne o [] with ho | ho
        · subst ho
          rw [show (∃ r, processQueueGo (.prep a :: rest) p [] [] = .ok r) ↔
              (∃ r, processQueueGo rest (p ++ [a]) [] [] = .ok r) by rw [go_prep_ok]]
          rw [ih (p ++ [a]) [] []]
          constructor
          · rintro ⟨hpw, -, -⟩
            exact ⟨List.pairwise_cons.2 ⟨fun b _ => orderRel_prep_left a b, hpw⟩,
              fun h => absurd rfl h, fun h => absurd rfl h⟩
          · rintro ⟨hpw, -, -⟩
            exact ⟨(List.pairwise_cons.1 hpw).2,
              fun h => absurd rfl h, fun h => absurd rfl h⟩
        · constructor
          · rintro ⟨r, h⟩
            rw [go_prep_err_gate a rest p o ho] at h
            exact absurd h (by simp)
          · rintro ⟨-, h2, -⟩
            have := h2 ho (.prep a) (List.mem_cons_self _ _)
            simp at this
      · constructor
        · rintro ⟨r, h⟩
          rw [go_prep_err_meas a rest p o ms hm] at h
          exact absurd h (by simp)
        · rintro ⟨-, -, h3⟩
          have := h3 hm (.prep a) (List.mem_cons_self _ _)
          simp at this
    | gate a =>
      rcases eq_or_ne ms [] with hm | hm
      · subst hm
        rw [show (∃ r, processQueueGo (.gate a :: rest) p o [] = .ok r) ↔
            (∃ r, processQueueGo rest p (o ++ [a]) [] = .ok r) by rw [go_gate_ok]]
        rw [ih p (o ++ [a]) []]
        constructor
        · rintro ⟨hpw, hnp, -⟩
          have hnp' : ∀ x ∈ rest, x.isPrep = false := hnp (by simp)
          refine ⟨List.pairwise_cons.2
            ⟨fun b hb => (orderRel_gate_left a b).2 (hnp' b hb), hpw⟩, ?_, ?_⟩
          · intro _ y hy
            rcases List.mem_cons.1 hy with h | h
            · subst h
              rfl
            · exact hnp' y h
          · intro h
            exact absurd rfl h
        · rintro ⟨hpw, -, -⟩
          have hc := List.pairwise_cons.1 hpw
          exact ⟨hc.2, fun _ => fun y hy => (orderRel_gate_left a y).1 (hc.1 y hy),
            fun h => absurd rfl h⟩
      · constructor
        · rintro ⟨r, h⟩
          rw [go_gate_err a rest p o ms hm] at h
          exact absurd h (by simp)
        · rintro ⟨-, -, h3⟩
          have := h3 hm (.gate a) (List.mem_cons_self _ _)
          simp at this
    | meas a =>
      rw [show (∃ r, processQueueGo (.meas a :: rest) p o ms = .ok r) ↔
          (∃ r, processQueueGo rest p o (ms ++ [a]) = .ok r) by rw [go_meas_red]]
      rw [ih p o (ms ++ [a])]
      constructor
      · rintro ⟨hpw, hnp, hme⟩
        have hme' : ∀ x ∈ rest, x.isMeas = true := hme (by simp)
        refine ⟨List.pairwise_cons.2
          ⟨fun b hb => (orderRel_meas_left a b).2 (hme' b hb), hpw⟩, ?_, ?_⟩
        · intro ho' y hy
          rcases List.mem_cons.1 hy with h | h
          · subst h
            rfl
          · cases hyb : y.isPrep with
            | false => rfl
            | true =>
              have := hme' y h
              cases y <;> simp_all
        · intro _ y hy
          rcases List.mem_cons.1 hy with h | h
          · subst h
            rfl
          · exact hme' y h
      · rintro ⟨hpw, hnp, -⟩
        have hc := List.pairwise_cons.1 hpw
        refine ⟨hc.2, ?_, fun _ => fun y hy => (orderRel_meas_left a y).1 (hc.1 y hy)⟩
        intro ho' y hy
        exact hnp ho' y (List.mem_cons_of_mem _ hy)

lemma go_total (q : List QItem) :
    ∀ p o ms, (∃ r, processQueueGo q p o ms = .ok r) ∨
      recordingOrderError (processQueueGo q p o ms) := by
  induction q with
  | nil =>
    intro p o ms
    exact Or.inl ⟨(p, o, ms), rfl⟩
  | cons x rest ih =>
    intro p o ms
    cases x with
    | prep a =>
      rcases eq_or_ne ms [] with hm | hm
      · subst hm
        rcases eq_or_ne o [] with ho | ho
        · subst ho
          rw [go_prep_ok]
          exact ih (p ++ [a]) [] []
        · right
          rw [go_prep_err_gate a rest p o ho]
          exact Or.inr rfl
      · right
        rw [go_prep_err_meas a rest p o ms hm]
        exact Or.inl rfl
    | gate a =>
      rcases eq_or_ne ms [] with hm | hm
      · subst hm
        rw [go_gate_ok]
        exact ih p (o ++ [a]) []
      · right
        rw [go_gate_err a rest p o ms hm]
        exact Or.inl rfl
    | meas a =>
      rw [go_meas_red]
      exact ih p o (ms ++ [a])

/-- Claim C2: a queue finalizes successfully exactly when it is well
ordered — every state preparation precedes every other operation and every
operation precedes every measurement in the queue, hence also in the
partitioned operations/measurements views — and on success the partitions
are the preparations, general operations and measurements of the queue in
recording order; a queue violating the order fails at finalization with a
recording-order error. -/
theorem C2_order_invariant :
    ∀ q : List QItem,
      (∀ p o ms, processQueue q = .ok (p, o, ms) →
        wellOrdered q ∧ p = prepsOf q ∧ o = gatesOf q ∧ ms = measOf q) ∧
      (¬ wellOrdered q → recordingOrderError (processQueue q)) := by
  intro q
  constructor
  · intro p o ms h
    have hparts := go_ok_parts q [] [] [] (p, o, ms) h
    have hwo : wellOrdered q := ((go_ok_iff q [] [] []).1 ⟨(p, o, ms), h⟩).1
    simp only [List.nil_append, Prod.mk.injEq] at hparts
    exact ⟨hwo, hparts.1, hparts.2.1, hparts.2.2⟩
  · intro hnot
    rcases go_total q [] [] [] with ⟨r, hr⟩ | herr
    · exact absurd ((go_ok_iff q [] [] []).1 ⟨r, hr⟩).1 hnot
    · exact herr

/-- A rotation-gate fixture. -/
def opRX : Operation :=
  { name := "RX", wires := [0], data := [Param.scalar (1 / 2)], inverse := false }

/-- A three-parameter rotation fixture. -/
def opRot : Operation :=
  { name := "Rot", wires := [0], data := [Param.scalar (1 / 3), Param.scalar 0,
    Param.scalar (2 / 3)], inverse := false }

/-- A two-wire parameter-free gate fixture. -/
def opCNOT : Operation :=
  { name := "CNOT", wires := [0, 1], data := [], inverse := false }

/-- A state-preparation fixture with one array parameter. -/
def opBasisState : Operation :=
  { name := "BasisState", wires := [0, 1], data := [Param.array [1, 1]],
    inverse := false }

/-- An expectation measurement of the Pauli-Z fixture. -/
def mpExpZ : MeasurementProcess :=
  { return_type := .Expectation, obs := some obsPauliZ, wiresStored := [],
    eigvalsStored := none, id := none, name := "Identity", data := [] }

/-- Claim C2 (witness): the theorem applied to a well-ordered concrete queue
and to a queue recording a preparation after a gate. -/
theorem C2_order_invariant_witness :
    (wellOrdered [QItem.prep opBasisState, QItem.gate opRX, QItem.meas mpExpZ] ∧
      [opBasisState] = prepsOf [QItem.prep opBasisState, QItem.gate opRX, QItem.meas mpExpZ] ∧
      [opRX] = gatesOf [QItem.prep opBasisState, QItem.gate opRX, QItem.meas mpExpZ] ∧
      [mpExpZ] = measOf [QItem.prep opBasisState, QItem.gate opRX, QItem.meas mpExpZ]) ∧
    recordingOrderError (processQueue [QItem.gate opRX, QItem.prep opBasisState]) :=
  ⟨(C2_order_invariant [QItem.prep opBasisState, QItem.gate opRX, QItem.meas mpExpZ]).1
      [opBasisState] [opRX] [mpExpZ] rfl,
   (C2_order_invariant [QItem.gate opRX, QItem.prep opBasisState]).2 (by decide)⟩

/-- Modelled from the spec: tape finalization (spec section 4.3) — partition
the queue, then default the trainable parameters to all parameter
indices. -/
def finalizeTape (q : List QItem) : Except PLError QuantumTape :=
  match processQueue q with
  | .error e => .error e
  | .ok (p, o, ms) =>
    .ok { prep := p, ops := o, meas := ms,
          trainable := List.range (QuantumTape.allParams
            { prep := p, ops := o, meas := ms, trainable := [] }).length }

/-- Modelled from the spec: the owner recorded in a `_par_info` entry. -/
inductive ParOwner where
  | op (o : Operation)
  | measurement (m : MeasurementProcess)
deriving DecidableEq, Repr

/-- Modelled from the spec: `_par_info` — one entry per parameter slot,
recording the owning object and the index of the slot within the owner's
data, built by walking preparations, then operations, then measurements
(spec section 3). -/
def QuantumTape.parInfo (t : QuantumTape) : List (ParOwner × Nat) :=
  (t.prep.map fun o => (List.range o.data.length).map fun j => (ParOwner.op o, j)).flatten ++
    (t.ops.map fun o => (List.range o.data.length).map fun j => (ParOwner.op o, j)).flatten ++
    (t.meas.map fun m =>
      (List.range m.parData.length).map fun j => (ParOwner.measurement m, j)).flatten

/-- Modelled from the spec and the tests: the tape's `num_params`.  Spec
section 3 calls this the total parameter count, but the in-tree tests
(TestParameters.test_set_trainable_params, test_tape.py lines 616-637)
assert that after restricting `trainable_params` it equals the number of
trainable parameters, so `num_params` is the length of the trainable list;
it coincides with the total count at finalization, when every index is
trainable. -/
def QuantumTape.num_params (t : QuantumTape) : Nat :=
  t.trainable.length

/-- Modelled from the spec: the `trainable_params` setter (spec section
4.3) — the indices are normalized to an ascending duplicate-free list; an
index at or beyond the total parameter count is rejected (negative or
non-integer indices have no counterpart for natural-number inputs). -/
def QuantumTape.setTrainableParams (t : QuantumTape) (idxs : List Nat) :
    Except PLError QuantumTape :=
  if idxs.all fun i => decide (i < t.allParams.length) then
    .ok { t with trainable := List.insertionSort (· ≤ ·) idxs.dedup }
  else .error (.ValueError "Tape has at most num parameters.")

lemma parInfo_length (t : QuantumTape) : t.parInfo.length = t.allParams.length := by
  unfold QuantumTape.parInfo QuantumTape.allParams QuantumTape.paramBlocks
  simp only [List.length_append, List.length_flatten, List.map_map, List.map_append,
    List.sum_append]
  have h1 : ∀ L : List Operation,
      L.map (List.length ∘ fun o =>
        (List.range o.data.length).map fun j => (ParOwner.op o, j)) =
        L.map (List.length ∘ Operation.data) :=
    fun L => List.map_congr_left fun o _ => by simp [Function.comp]
  have h2 : ∀ L : List MeasurementProcess,
      L.map (List.length ∘ fun m =>
        (List.range m.parData.length).map fun j => (ParOwner.measurement m, j)) =
        L.map (List.length ∘ MeasurementProcess.parData) :=
    fun L => List.map_congr_left fun m _ => by simp [Function.comp]
  rw [h1, h1, h2]

lemma length_lt_of_ne_range (l : List Nat) (n : Nat) (hnd : l.Nodup)
    (hsort : List.Sorted (· ≤ ·) l) (hlt : ∀ i ∈ l, i < n)
    (hne : l ≠ List.range n) : l.length < n := by
  have hsub : l.toFinset ⊆ (List.range n).toFinset := by
    intro i hi
    rw [List.mem_toFinset] at hi
    rw [List.mem_toFinset, List.mem_range]
    exact hlt i hi
  have hle : l.length ≤ n := by
    have hcard := Finset.card_le_card hsub
    rwa [List.toFinset_card_of_nodup hnd,
      List.toFinset_card_of_nodup (List.nodup_range n), List.length_range] at hcard
  rcases lt_or_eq_of_le hle with h | h
  · exact h
  · exfalso
    have hperm : l.Perm (List.range n) := by
      apply List.perm_of_nodup_nodup_toFinset_eq hnd (List.nodup_range n)
      apply Finset.eq_of_subset_of_card_le hsub
      rw [List.toFinset_card_of_nodup hnd,
        List.toFinset_card_of_nodup (List.nodup_range n), List.length_range, h]
    have hrange_sorted : List.Sorted (· ≤ ·) (List.range n) :=
      (List.pairwise_lt_range n).imp le_of_lt
    exact hne (List.eq_of_perm_of_sorted hperm hsort hrange_sorted)

lemma setTrainable_ok (t : QuantumTape) (s : List Nat) (t' : QuantumTape)
    (h : t.setTrainableParams s = .ok t') :
    t' = { t with trainable := List.insertionSort (· ≤ ·) s.dedup } ∧
      t'.trainable.Nodup ∧ List.Sorted (· ≤ ·) t'.trainable ∧
      ∀ i ∈ t'.trainable, i < t.allParams.length := by
  unfold QuantumTape.setTrainableParams at h
  split at h
  · next hall =>
    simp only [Except.ok.injEq] at h
    subst h
    refine ⟨rfl, ?_, ?_, ?_⟩
    · exact ((List.perm_insertionSort (· ≤ ·) s.dedup).nodup_iff).2 (List.nodup_dedup s)
    · exact List.sorted_insertionSort (· ≤ ·) s.dedup
    · intro i hi
      have hmem : i ∈ s.dedup :=
        (List.perm_insertionSort (· ≤ ·) s.dedup).mem_iff.1 hi
      have hmem' : i ∈ s := (List.mem_dedup).1 hmem
      have := List.all_eq_true.1 hall i hmem'
      exact of_decide_eq_true this
  · exact absurd h (by simp)

/-- Claim C1 (counterexample): after restricting the trainable parameters of
a four-parameter tape to the strict subset containing only index zero, the
tape's `_par_info` still has four entries while `num_params` is one, so the
claimed equality fails after the restriction. -/
theorem C1_counterexample :
    QuantumTape.setTrainableParams
        { prep := [], ops := [opRX, opRot], meas := [], trainable := [0, 1, 2, 3] } [0] =
      .ok { prep := [], ops := [opRX, opRot], meas := [], trainable := [0] } ∧
    ([0] : List Nat) ≠ List.range
      (QuantumTape.allParams
        { prep := [], ops := [opRX, opRot], meas := [], trainable := [0, 1, 2, 3] }).length ∧
    (QuantumTape.parInfo
      { prep := [], ops := [opRX, opRot], meas := [], trainable := [0] }).length = 4 ∧
    QuantumTape.num_params
      { prep := [], ops := [opRX, opRot], meas := [], trainable := [0] } = 1 ∧
    ¬ QuantumTape.num_params
        { prep := [], ops := [opRX, opRot], meas := [], trainable := [0] } =
      (QuantumTape.parInfo
        { prep := [], ops := [opRX, opRot], meas := [], trainable := [0] }).length := by
  exact ⟨rfl, by decide, rfl, rfl, by decide⟩

/-- Claim C1 (amended): for every tape produced by finalization, the length
of `_par_info` equals the total parameter count across every queued
operation and measurement (an observable with array data contributing one
slot per array argument), and at finalization `num_params` equals that
length; after `trainable_params` is set, `_par_info` keeps its full length
while `num_params` equals the size of the trainable set, so for a strict
subset the claimed equality fails — `num_params` is strictly smaller. -/
theorem C1_par_info_length :
    ∀ (q : List QItem) (t : QuantumTape), finalizeTape q = .ok t →
      (t.parInfo.length = t.allParams.length ∧ t.num_params = t.parInfo.length) ∧
      (∀ (s : List Nat) (t' : QuantumTape), t.setTrainableParams s = .ok t' →
        t'.parInfo.length = t.parInfo.length ∧
        t'.num_params = t'.trainable.length ∧
        (t'.trainable ≠ List.range t.allParams.length →
          t'.num_params < t'.parInfo.length)) := by
  intro q t h
  unfold finalizeTape at h
  split at h
  · exact absurd h (by simp)
  · next p o ms heq =>
    simp only [Except.ok.injEq] at h
    subst h
    constructor
    · constructor
      · exact parInfo_length _
      · rw [parInfo_length _]
        simp only [QuantumTape.num_params, List.length_range]
        rfl
    · intro s t' hset
      obtain ⟨ht', hnd, hsort, hbound⟩ := setTrainable_ok _ s t' hset
      subst ht'
      refine ⟨rfl, rfl, ?_⟩
      intro hne
      rw [parInfo_length]
      exact length_lt_of_ne_range _ _ hnd hsort hbound hne

/-- Claim C1 (witness): the amended theorem applied to a concrete
finalized two-operation tape and the strict trainable subset containing
only index zero. -/
theorem C1_par_info_length_witness :
    ((QuantumTape.parInfo
        { prep := [], ops := [opRX, opRot], meas := [], trainable := [0, 1, 2, 3] }).length =
      (QuantumTape.allParams
        { prep := [], ops := [opRX, opRot], meas := [], trainable := [0, 1, 2, 3] }).length ∧
      QuantumTape.num_params
        { prep := [], ops := [opRX, opRot], meas := [], trainable := [0, 1, 2, 3] } =
      (QuantumTape.parInfo
        { prep := [], ops := [opRX, opRot], meas := [], trainable := [0, 1, 2, 3] }).length) ∧
    QuantumTape.num_params
        { prep := [], ops := [opRX, opRot], meas := [], trainable := [0] } <
      (QuantumTape.parInfo
        { prep := [], ops := [opRX, opRot], meas := [], trainable := [0] }).length :=
  ⟨(C1_par_info_length [QItem.gate opRX, QItem.gate opRot]
      { prep := [], ops := [opRX, opRot], meas := [], trainable := [0, 1, 2, 3] } (by rfl)).1,
   ((C1_par_info_length [QItem.gate opRX, QItem.gate opRot]
      { prep := [], ops := [opRX, opRot], meas := [], trainable := [0, 1, 2, 3] } (by rfl)).2
      [0] { prep := [], ops := [opRX, opRot], meas := [], trainable := [0] }
      rfl).2.2 (by decide)⟩

/-- Modelled from the spec: write a value into the parameter slot at a
global offset within a list of operations, descending the per-operation
data blocks. -/
def updOps (ops : List Operation) (g : Nat) (v : Param) : List Operation :=
  match ops with
  | [] => []
  | o :: rest =>
    if g < o.data.length then { o with data := o.data.set g v } :: rest
    else o :: updOps rest (g - o.data.length) v

/-- Write a value into a measurement's parameter slot: into the observable's
data when an observable is present, else into the process's own data. -/
def setMeasParam (m : MeasurementProcess) (g : Nat) (v : Param) : MeasurementProcess :=
  match m.obs with
  | some o => { m with obs := some { o with data := o.data.set g v } }
  | none => { m with data := m.data.set g v }

/-- Modelled from the spec: write a value into the parameter slot at a
global offset within a list of measurements. -/
def updMeas (ms : List MeasurementProcess) (g : Nat) (v : Param) :
    List MeasurementProcess :=
  match ms with
  | [] => []
  | m :: rest =>
    if g < m.parData.length then setMeasParam m g v :: rest
    else m :: updMeas rest (g - m.parData.length) v

/-- The number of parameter slots owned by the preparations. -/
def QuantumTape.prepLen (t : QuantumTape) : Nat :=
  (t.prep.map Operation.data).flatten.length

/-- The number of parameter slots owned by the general operations. -/
def QuantumTape.opsLen (t : QuantumTape) : Nat :=
  (t.ops.map Operation.data).flatten.length

/-- Modelled from the spec: write one parameter value into the owning
object's data slot, located by the global `_par_info` index (preparations,
then operations, then measurements). -/
def QuantumTape.updateParam (t : QuantumTape) (g : Nat) (v : Param) : QuantumTape :=
  if g < t.prepLen then { t with prep := updOps t.prep g v }
  else if g - t.prepLen < t.opsLen then { t with ops := updOps t.ops (g - t.prepLen) v }
  else { t with meas := updMeas t.meas (g - t.prepLen - t.opsLen) v }

/-- Modelled from the spec: `set_parameters` (spec section 4.3) — the number
of supplied values must equal the number of target indices exactly, else the
call fails with a count-mismatch error and no slot is written; on success
each value is written into the owning object's data slot, in `_par_info`
order. -/
def QuantumTape.set_parameters (t : QuantumTape) (values : List Param)
    (trainable_only : Bool) : Except PLError QuantumTape :=
  if values.length =
      (if trainable_only then t.trainable else List.range t.allParams.length).length then
    .ok (((if trainable_only then t.trainable
        else List.range t.allParams.length).zip values).foldl
      (fun tp iv => tp.updateParam iv.1 iv.2) t)
  else .error (.ValueError "Number of provided parameters does not match.")

/-- Modelled from the spec: `get_parameters` — the current parameter values
read live from the owning objects in `_par_info` order, restricted to the
trainable indices when requested. -/
def QuantumTape.get_parameters (t : QuantumTape) (trainable_only : Bool) : List Param :=
  (if trainable_only then t.trainable else List.range t.allParams.length).map
    fun i => t.allParams.getD i (Param.scalar 0)

lemma allParams_decomp (t : QuantumTape) :
    t.allParams = (t.prep.map Operation.data).flatten ++
      (t.ops.map Operation.data).flatten ++
      (t.meas.map MeasurementProcess.parData).flatten := by
  unfold QuantumTape.allParams QuantumTape.paramBlocks
  rw [List.flatten_append, List.flatten_append]

lemma updOps_flatten (v : Param) :
    ∀ (ops : List Operation) (g : Nat),
      ((updOps ops g v).map Operation.data).flatten =
        ((ops.map Operation.data).flatten).set g v := by
  intro ops
  induction ops with
  | nil =>
    intro g
    simp [updOps]
  | cons o rest ih =>
    intro g
    by_cases hg : g < o.data.length
    · simp only [updOps, hg, if_true, List.map_cons, List.flatten_cons]
      rw [List.set_append]
      simp [hg]
    · simp only [updOps, hg, if_false, List.map_cons, List.flatten_cons]
      rw [List.set_append, ih (g - o.data.length)]
      simp [hg]

lemma setMeasParam_parData (m : MeasurementProcess) (g : Nat) (v : Param) :
    (setMeasParam m g v).parData = m.parData.set g v := by
  unfold setMeasParam MeasurementProcess.parData
  cases m.obs <;> simp

lemma updMeas_flatten (v : Param) :
    ∀ (ms : List MeasurementProcess) (g : Nat),
      ((updMeas ms g v).map MeasurementProcess.parData).flatten =
        ((ms.map MeasurementProcess.parData).flatten).set g v := by
  intro ms
  induction ms with
  | nil =>
    intro g
    simp [updMeas]
  | cons m rest ih =>
    intro g
    by_cases hg : g < m.parData.length
    · simp only [updMeas, hg, if_true, List.map_cons, List.flatten_cons]
      rw [List.set_append, setMeasParam_parData]
      simp [hg]
    · simp only [updMeas, hg, if_false, List.map_cons, List.flatten_cons]
      rw [List.set_append, ih (g - m.parData.length)]
      simp [hg]

lemma updateParam_allParams (t : QuantumTape) (g : Nat) (v : Param) :
    (t.updateParam g v).allParams = t.allParams.set g v := by
  unfold QuantumTape.updateParam QuantumTape.prepLen QuantumTape.opsLen
  by_cases h1 : g < (t.prep.map Operation.data).flatten.length
  · rw [if_pos h1, allParams_decomp, allParams_decomp t]
    dsimp only
    rw [updOps_flatten]
    have hAB : g < ((t.prep.map Operation.data).flatten ++
        (t.ops.map Operation.data).flatten).length := by
      rw [List.length_append]
      omega
    rw [List.set_append, if_pos hAB, List.set_append, if_pos h1]
  · rw [if_neg h1]
    by_cases h2 : g - (t.prep.map Operation.data).flatten.length <
        (t.ops.map Operation.data).flatten.length
    · rw [if_pos h2, allParams_decomp, allParams_decomp t]
      dsimp only
      rw [updOps_flatten]
      have hAB : g < ((t.prep.map Operation.data).flatten ++
          (t.ops.map Operation.data).flatten).length := by
        rw [List.length_append]
        omega
      rw [List.set_append, if_pos hAB, List.set_append, if_neg h1]
    · rw [if_neg h2, allParams_decomp, allParams_decomp t]
      dsimp only
      rw [updMeas_flatten]
      have hAB : ¬ g < ((t.prep.map Operation.data).flatten ++
          (t.ops.map Operation.data).flatten).length := by
        rw [List.length_append]
        omega
      rw [List.set_append, if_neg hAB, List.length_append, Nat.sub_sub]

lemma updateParam_trainable (t : QuantumTape) (g : Nat) (v : Param) :
    (t.updateParam g v).trainable = t.trainable := by
  unfold QuantumTape.updateParam
  split
  · rfl
  split
  · rfl
  · rfl

lemma foldl_update_allParams (l : List (Nat × Param)) :
    ∀ t : QuantumTape,
      (l.foldl (fun tp iv => tp.updateParam iv.1 iv.2) t).allParams =
        l.foldl (fun ps iv => ps.set iv.1 iv.2) t.allParams := by
  induction l with
  | nil =>
    intro t
    rfl
  | cons iv rest ih =>
    intro t
    simp only [List.foldl_cons]
    rw [ih, updateParam_allParams]

lemma set_fold_range' :
    ∀ (vs : List Param) (L : List Param) (k : Nat), L.length = k + vs.length →
      ((List.range' k vs.length).zip vs).foldl (fun ps iv => ps.set iv.1 iv.2) L =
        L.take k ++ vs := by
  intro vs
  induction vs with
  | nil =>
    intro L k hk
    simp only [List.length_nil, Nat.add_zero] at hk
    simp [List.take_of_length_le (le_of_eq hk)]
  | cons w ws ih =>
    intro L k hk
    simp only [List.length_cons] at hk
    have hkL : k < L.length := by omega
    have hrange : List.range' k (ws.length + 1) = k :: List.range' (k + 1) ws.length :=
      List.range'_succ k ws.length 1
    simp only [List.length_cons, hrange, List.zip_cons_cons, List.foldl_cons]
    have hlen : (L.set k w).length = (k + 1) + ws.length := by
      rw [List.length_set]
      omega
    rw [ih (L.set k w) (k + 1) hlen]
    have htake : (L.set k w).take (k + 1) = L.take k ++ [w] := by
      apply List.ext_getElem
      · rw [List.length_take_of_le (by rw [List.length_set]; omega),
          List.length_append, List.length_take_of_le (le_of_lt hkL)]
        rfl
      · intro i hi1 hi2
        rw [List.getElem_take, List.getElem_set, List.getElem_append]
        have hik1 : i < k + 1 := by
          rwa [List.length_take_of_le (by rw [List.length_set]; omega)] at hi1
        by_cases hik : i < k
        · have hlt : i < (L.take k).length := by
            rw [List.length_take_of_le (le_of_lt hkL)]
            exact hik
          rw [dif_pos hlt, List.getElem_take, if_neg (by omega)]
        · have hk_eq : k = i := by omega
          subst hk_eq
          have hnlt : ¬ k < (L.take k).length := by
            rw [List.length_take_of_le (le_of_lt hkL)]
            omega
          rw [dif_neg hnlt, if_pos rfl]
          have h0 : k - (L.take k).length = 0 := by
            rw [List.length_take_of_le (le_of_lt hkL)]
            omega
          simp [h0]
    rw [htake, List.append_assoc]
    rfl

lemma map_getD_range (V : List Param) :
    (List.range V.length).map (fun i => V.getD i (Param.scalar 0)) = V := by
  apply List.ext_getElem
  · simp
  · intro i h1 h2
    simp only [List.getElem_map, List.getElem_range]
    rw [List.getD_eq_getElem]

/-- Claim C3: for a value list V of full length, set_parameters followed by
get_parameters with trainable_only set to false returns exactly V in order;
and set_parameters with a value count differing from the number of target
indices fails with the count-mismatch error (the pure model writes nothing
on failure). -/
theorem C3_parameter_roundtrip :
    (∀ (t : QuantumTape) (v : List Param), v.length = t.allParams.length →
      (t.set_parameters v false).map (fun t' => t'.get_parameters false) = .ok v) ∧
    (∀ (t : QuantumTape) (v : List Param) (b : Bool),
      v.length ≠ (if b then t.trainable else List.range t.allParams.length).length →
      t.set_parameters v b =
        .error (.ValueError "Number of provided parameters does not match.")) := by
  constructor
  · intro t v hlen
    have hcond : v.length = (List.range t.allParams.length).length := by
      rw [List.length_range]
      exact hlen
    have hred : t.set_parameters v false =
        .ok (((List.range t.allParams.length).zip v).foldl
          (fun tp iv => tp.updateParam iv.1 iv.2) t) := by
      unfold QuantumTape.set_parameters
      simp only [Bool.false_eq_true, if_false]
      rw [if_pos hcond]
    rw [hred]
    have hall : (((List.range t.allParams.length).zip v).foldl
        (fun tp iv => tp.updateParam iv.1 iv.2) t).allParams = v := by
      rw [foldl_update_allParams]
      have h0 : List.range t.allParams.length = List.range' 0 v.length := by
        rw [← hlen, List.range_eq_range']
      rw [h0]
      have hres := set_fold_range' v t.allParams 0 (by omega)
      simpa using hres
    have hmap : (Except.ok (((List.range t.allParams.length).zip v).foldl
        (fun tp iv => tp.updateParam iv.1 iv.2) t) : Except PLError QuantumTape).map
          (fun t' => t'.get_parameters false) =
        .ok ((((List.range t.allParams.length).zip v).foldl
          (fun tp iv => tp.updateParam iv.1 iv.2) t).get_parameters false) := rfl
    rw [hmap]
    refine congrArg Except.ok ?_
    unfold QuantumTape.get_parameters
    simp only [Bool.false_eq_true, if_false]
    rw [hall]
    exact map_getD_range v
  · intro t v b hne
    unfold QuantumTape.set_parameters
    cases b
    · simp only [Bool.false_eq_true, if_false] at hne ⊢
      rw [if_neg hne]
    · simp only [if_true] at hne ⊢
      rw [if_neg hne]

/-- Claim C3 (witness): the theorem applied to a concrete two-operation
tape with a fresh full-length value list, and to a mismatched count. -/
theorem C3_parameter_roundtrip_witness :
    (QuantumTape.set_parameters
        { prep := [], ops := [opRX, opRot], meas := [], trainable := [0, 1, 2, 3] }
        [Param.scalar 9, Param.scalar 8, Param.array [7], Param.scalar 6] false).map
      (fun t' => t'.get_parameters false) =
      .ok [Param.scalar 9, Param.scalar 8, Param.array [7], Param.scalar 6] ∧
    QuantumTape.set_parameters
        { prep := [], ops := [opRX, opRot], meas := [], trainable := [0, 1, 2, 3] }
        [Param.scalar 9] false =
      .error (.ValueError "Number of provided parameters does not match.") :=
  ⟨C3_parameter_roundtrip.1
      { prep := [], ops := [opRX, opRot], meas := [], trainable := [0, 1, 2, 3] }
      [Param.scalar 9, Param.scalar 8, Param.array [7], Param.scalar 6] rfl,
   C3_parameter_roundtrip.2
      { prep := [], ops := [opRX, opRot], meas := [], trainable := [0, 1, 2, 3] }
      [Param.scalar 9] false (by decide)⟩

/-- The blocks of consecutive parameter indices, one block per size, starting
at a given offset. -/
def idxBlocks (start : Nat) : List Nat → List (List Nat)
  | [] => []
  | s :: ss => List.range' start s :: idxBlocks (start + s) ss

/-- The flattened index blocks with the block order reversed: the old index
occupying each new position when blocks are reversed. -/
def revFlat0 (s : List Nat) : List Nat :=
  ((idxBlocks 0 s).reverse).flatten

lemma idxBlocks_shift (a : Nat) :
    ∀ (s : List Nat) (b : Nat),
      idxBlocks (a + b) s = (idxBlocks b s).map (List.map fun x => a + x) := by
  intro s
  induction s with
  | nil =>
    intro b
    rfl
  | cons s0 ss ih =>
    intro b
    simp only [idxBlocks, List.map_cons]
    rw [show a + b + s0 = a + (b + s0) by omega, ih (b + s0), List.map_add_range']

lemma idxBlocks_append :
    ∀ (x y : List Nat) (b : Nat),
      idxBlocks b (x ++ y) = idxBlocks b x ++ idxBlocks (b + x.sum) y := by
  intro x
  induction x with
  | nil =>
    intro y b
    simp [idxBlocks]
  | cons s0 ss ih =>
    intro y b
    simp only [List.cons_append, idxBlocks, List.sum_cons, List.append_eq]
    rw [show b + (s0 + ss.sum) = (b + s0) + ss.sum by omega, ← ih y (b + s0)]

lemma idxBlocks_flatten :
    ∀ (s : List Nat) (b : Nat), (idxBlocks b s).flatten = List.range' b s.sum := by
  intro s
  induction s with
  | nil =>
    intro b
    rfl
  | cons s0 ss ih =>
    intro b
    simp only [idxBlocks, List.flatten_cons, List.sum_cons, ih (b + s0)]
    rw [show b + s0 = b + 1 * s0 by omega, List.range'_append, Nat.add_comm ss.sum s0]

lemma revFlat_off (P : Nat) (S : List Nat) :
    ((idxBlocks P S).reverse).flatten = (revFlat0 S).map fun x => P + x := by
  have h : idxBlocks P S = (idxBlocks 0 S).map (List.map fun x => P + x) := by
    have := idxBlocks_shift P S 0
    rwa [Nat.add_zero] at this
  rw [h, ← List.map_reverse, ← List.map_flatten]
  rfl

lemma revFlat0_perm (s : List Nat) : (revFlat0 s).Perm (List.range' 0 s.sum) := by
  unfold revFlat0
  have h1 : ((idxBlocks 0 s).reverse).flatten.Perm ((idxBlocks 0 s).flatten) :=
    (List.reverse_perm (idxBlocks 0 s)).flatten
  rw [idxBlocks_flatten s 0] at h1
  exact h1

lemma revFlat0_length (s : List Nat) : (revFlat0 s).length = s.sum := by
  rw [(revFlat0_perm s).length_eq, List.length_range']

lemma revFlat0_lt (s : List Nat) (x : Nat) (hx : x ∈ revFlat0 s) : x < s.sum := by
  have := (revFlat0_perm s).mem_iff.1 hx
  rw [List.mem_range'_1] at this
  omega

lemma revFlat0_cons (s0 : Nat) (ss : List Nat) :
    revFlat0 (s0 :: ss) = ((revFlat0 ss).map fun x => s0 + x) ++ List.range' 0 s0 := by
  have h : idxBlocks (0 + s0) ss = (idxBlocks 0 ss).map (List.map fun x => s0 + x) := by
    rw [Nat.zero_add]
    have h' := idxBlocks_shift s0 ss 0
    rwa [Nat.add_zero] at h'
  unfold revFlat0
  simp only [idxBlocks, List.reverse_cons, List.flatten_append, h, ← List.map_reverse,
    ← List.map_flatten]
  simp [revFlat0]

lemma revFlat0_append (x y : List Nat) :
    revFlat0 (x ++ y) = ((revFlat0 y).map fun v => x.sum + v) ++ revFlat0 x := by
  unfold revFlat0
  rw [idxBlocks_append x y 0, Nat.zero_add, List.reverse_append, List.flatten_append,
    show idxBlocks x.sum y = idxBlocks (x.sum + 0) y by rw [Nat.add_zero],
    idxBlocks_shift x.sum y 0, ← List.map_reverse, ← List.map_flatten]

lemma getD_range'_of_lt (a m i : Nat) (hi : i < m) :
    (List.range' a m).getD i 0 = a + i := by
  rw [List.getD_eq_getElem _ _ (by rw [List.length_range']; exact hi),
    List.getElem_range']
  omega

lemma getD_map_add (a : Nat) (L : List Nat) (i : Nat) (hi : i < L.length) :
    (L.map fun x => a + x).getD i 0 = a + L.getD i 0 := by
  rw [List.getD_eq_getElem _ _ (by rw [List.length_map]; exact hi),
    List.getElem_map, List.getD_eq_getElem _ _ hi]

lemma revFlat0_comp :
    ∀ (s : List Nat) (q : Nat), q < s.sum →
      (revFlat0 s).getD ((revFlat0 s.reverse).getD q 0) 0 = q := by
  intro s
  induction s with
  | nil =>
    intro q hq
    simp at hq
  | cons s0 ss ih =>
    intro q hq
    simp only [List.sum_cons] at hq
    have hE2 : revFlat0 ((s0 :: ss).reverse) =
        List.range' ss.sum s0 ++ revFlat0 ss.reverse := by
      rw [List.reverse_cons, revFlat0_append]
      have hsingle : revFlat0 [s0] = List.range' 0 s0 := by
        unfold revFlat0
        simp [idxBlocks]
      rw [hsingle, List.map_add_range', List.sum_reverse, Nat.add_zero]
    rw [hE2, revFlat0_cons]
    by_cases hq0 : q < s0
    · have hinner : (List.range' ss.sum s0 ++ revFlat0 ss.reverse).getD q 0 =
          ss.sum + q := by
        rw [List.getD_append _ _ _ _ (by rw [List.length_range']; exact hq0),
          getD_range'_of_lt _ _ _ hq0]
      rw [hinner]
      have hlenmap : ((revFlat0 ss).map fun x => s0 + x).length = ss.sum := by
        rw [List.length_map, revFlat0_length]
      rw [List.getD_append_right _ _ _ _ (by rw [hlenmap]; omega), hlenmap,
        Nat.add_sub_cancel_left, getD_range'_of_lt _ _ _ hq0, Nat.zero_add]
    · have hr : q - s0 < ss.sum := by omega
      have hlen' : q - s0 < (revFlat0 ss.reverse).length := by
        rw [revFlat0_length, List.sum_reverse]
        exact hr
      have hinner : (List.range' ss.sum s0 ++ revFlat0 ss.reverse).getD q 0 =
          (revFlat0 ss.reverse).getD (q - s0) 0 := by
        rw [List.getD_append_right _ _ _ _ (by rw [List.length_range']; omega),
          List.length_range']
      rw [hinner]
      have hu : (revFlat0 ss.reverse).getD (q - s0) 0 < ss.sum := by
        have hmem : (revFlat0 ss.reverse).getD (q - s0) 0 ∈ revFlat0 ss.reverse := by
          rw [List.getD_eq_getElem _ _ hlen']
          exact List.getElem_mem hlen'
        have hlt := revFlat0_lt _ _ hmem
        rwa [List.sum_reverse] at hlt
      rw [List.getD_append _ _ _ _ (by rw [List.length_map, revFlat0_length]; exact hu),
        getD_map_add _ _ _ (by rw [revFlat0_length]; exact hu), ih (q - s0) hr]
      omega

/-- The per-operation parameter counts of the general operations. -/
def QuantumTape.sizes (t : QuantumTape) : List Nat :=
  t.ops.map fun o => o.data.length

/-- The number of parameter slots owned by the measurements. -/
def QuantumTape.measLen (t : QuantumTape) : Nat :=
  (t.meas.map MeasurementProcess.parData).flatten.length

/-- Modelled from the spec: the `parameter_indices` list built by `inv` —
for each new position after the operation blocks are reversed, the old
parameter index occupying it: preparation indices unchanged, the operation
index blocks in reversed block order, then measurement indices unchanged. -/
def QuantumTape.invIndices (t : QuantumTape) : List Nat :=
  List.range' 0 t.prepLen ++ ((idxBlocks t.prepLen t.sizes).reverse).flatten ++
    List.range' (t.prepLen + t.opsLen) t.measLen

/-- Modelled from the spec: the parameter remapping of `inv`: an old
parameter index is sent to the new position of the same physical slot. -/
def QuantumTape.invMap (t : QuantumTape) (i : Nat) : Nat :=
  t.invIndices.indexOf i

/-- Toggle an operation's inversion flag (the in-place `op.inv()` of the
operation contract). -/
def Operation.flipInverse (o : Operation) : Operation :=
  { o with inverse := !o.inverse }

/-- Modelled from the spec: `inv()` (spec section 4.3) — reverse the order
of the general operations (not the preparations, not the measurements),
invert each one in place, and remap every trainable parameter index through
the parameter permutation so that the same physical parameters remain
trainable; the result is kept ascending as the tests require. -/
def QuantumTape.inv (t : QuantumTape) : QuantumTape :=
  { t with ops := (t.ops.map Operation.flipInverse).reverse,
           trainable := List.insertionSort (· ≤ ·) (t.trainable.map t.invMap) }

/-- A well-formed finalized tape: the trainable indices are strictly
ascending (hence duplicate-free) and in range. -/
def QuantumTape.WF (t : QuantumTape) : Prop :=
  List.Sorted (· < ·) t.trainable ∧ ∀ i ∈ t.trainable, i < t.allParams.length

instance (t : QuantumTape) : Decidable t.WF := by
  unfold QuantumTape.WF List.Sorted
  infer_instance

lemma inv_prep (t : QuantumTape) : t.inv.prep = t.prep := rfl

lemma inv_meas (t : QuantumTape) : t.inv.meas = t.meas := rfl

lemma inv_ops (t : QuantumTape) :
    t.inv.ops = (t.ops.map Operation.flipInverse).reverse := rfl

lemma inv_trainable (t : QuantumTape) :
    t.inv.trainable = List.insertionSort (· ≤ ·) (t.trainable.map t.invMap) := rfl

lemma flip_data (o : Operation) : (Operation.flipInverse o).data = o.data := rfl

lemma flip_flip (o : Operation) : (o.flipInverse).flipInverse = o := by
  unfold Operation.flipInverse
  cases o
  simp

lemma inv_sizes (t : QuantumTape) : t.inv.sizes = t.sizes.reverse := by
  unfold QuantumTape.sizes
  rw [inv_ops, ← List.map_reverse, List.map_map, List.map_reverse]
  rfl

lemma inv_prepLen (t : QuantumTape) : t.inv.prepLen = t.prepLen := rfl

lemma inv_measLen (t : QuantumTape) : t.inv.measLen = t.measLen := rfl

lemma opsLen_eq_sum (t : QuantumTape) : t.opsLen = t.sizes.sum := by
  unfold QuantumTape.opsLen QuantumTape.sizes
  rw [List.length_flatten, List.map_map]
  rfl

lemma inv_opsLen (t : QuantumTape) : t.inv.opsLen = t.opsLen := by
  rw [opsLen_eq_sum, opsLen_eq_sum, inv_sizes, List.sum_reverse]

lemma prepLen_eq (t : QuantumTape) :
    t.prepLen = (t.prep.map Operation.data).flatten.length := rfl

lemma invIndices_of (t : QuantumTape) :
    t.invIndices = List.range' 0 t.prepLen ++
      ((revFlat0 t.sizes).map fun x => t.prepLen + x) ++
      List.range' (t.prepLen + t.opsLen) t.measLen := by
  unfold QuantumTape.invIndices
  rw [revFlat_off]

lemma inv_invIndices (t : QuantumTape) :
    t.inv.invIndices = List.range' 0 t.prepLen ++
      ((revFlat0 t.sizes.reverse).map fun x => t.prepLen + x) ++
      List.range' (t.prepLen + t.opsLen) t.measLen := by
  rw [invIndices_of, inv_sizes, inv_prepLen, inv_measLen, inv_opsLen]

lemma allParams_length_decomp (t : QuantumTape) :
    t.allParams.length = t.prepLen + t.sizes.sum + t.measLen := by
  rw [allParams_decomp, List.length_append, List.length_append, ← opsLen_eq_sum]
  rfl

lemma invIndices_perm (t : QuantumTape) :
    t.invIndices.Perm (List.range t.allParams.length) := by
  rw [invIndices_of, allParams_length_decomp, List.range_eq_range']
  have hmid : ((revFlat0 t.sizes).map fun x => t.prepLen + x).Perm
      (List.range' t.prepLen t.sizes.sum) := by
    have h := (revFlat0_perm t.sizes).map fun x => t.prepLen + x
    rwa [List.map_add_range', Nat.add_zero] at h
  have happ : (List.range' 0 t.prepLen ++
      ((revFlat0 t.sizes).map fun x => t.prepLen + x) ++
      List.range' (t.prepLen + t.opsLen) t.measLen).Perm
      (List.range' 0 t.prepLen ++ List.range' t.prepLen t.sizes.sum ++
        List.range' (t.prepLen + t.opsLen) t.measLen) :=
    ((hmid.append_left (List.range' 0 t.prepLen)).append_right _)
  refine happ.trans ?_
  have h1 := List.range'_append 0 t.prepLen t.sizes.sum 1
  simp only [Nat.zero_add, Nat.one_mul] at h1
  have h2 := List.range'_append 0 (t.prepLen + t.sizes.sum) t.measLen 1
  simp only [Nat.zero_add, Nat.one_mul] at h2
  rw [opsLen_eq_sum, h1, Nat.add_comm t.sizes.sum t.prepLen, h2,
    show t.measLen + (t.prepLen + t.sizes.sum) = t.prepLen + t.sizes.sum + t.measLen
      by omega]

lemma invIndices_length (t : QuantumTape) :
    t.invIndices.length = t.allParams.length := by
  rw [(invIndices_perm t).length_eq, List.length_range]

lemma invIndices_nodup (t : QuantumTape) : t.invIndices.Nodup :=
  (invIndices_perm t).nodup_iff.2 (List.nodup_range _)

lemma invIndices_mem (t : QuantumTape) (i : Nat) (hi : i < t.allParams.length) :
    i ∈ t.invIndices :=
  (invIndices_perm t).mem_iff.2 (List.mem_range.2 hi)

lemma invIndices_lt (t : QuantumTape) (x : Nat) (hx : x ∈ t.invIndices) :
    x < t.allParams.length := by
  have := (invIndices_perm t).mem_iff.1 hx
  exact List.mem_range.1 this

lemma invIndices_comp (t : QuantumTape) (i : Nat) (hi : i < t.allParams.length) :
    t.invIndices.getD (t.inv.invIndices.getD i 0) 0 = i := by
  have hn := allParams_length_decomp t
  rw [inv_invIndices, invIndices_of]
  have hmapR : ((revFlat0 t.sizes.reverse).map fun x => t.prepLen + x).length =
      t.sizes.sum := by
    rw [List.length_map, revFlat0_length, List.sum_reverse]
  have hmapL : ((revFlat0 t.sizes).map fun x => t.prepLen + x).length = t.sizes.sum := by
    rw [List.length_map, revFlat0_length]
  by_cases h1 : i < t.prepLen
  · have hinner : (List.range' 0 t.prepLen ++
        ((revFlat0 t.sizes.reverse).map fun x => t.prepLen + x) ++
        List.range' (t.prepLen + t.opsLen) t.measLen).getD i 0 = i := by
      rw [List.getD_append _ _ _ _
          (by rw [List.length_append, List.length_range', hmapR]; omega),
        List.getD_append _ _ _ _ (by rw [List.length_range']; exact h1),
        getD_range'_of_lt _ _ _ h1, Nat.zero_add]
    rw [hinner, List.getD_append _ _ _ _
        (by rw [List.length_append, List.length_range', hmapL]; omega),
      List.getD_append _ _ _ _ (by rw [List.length_range']; exact h1),
      getD_range'_of_lt _ _ _ h1, Nat.zero_add]
  · by_cases h2 : i < t.prepLen + t.sizes.sum
    · have hq : i - t.prepLen < t.sizes.reverse.sum := by
        rw [List.sum_reverse]
        omega
      have hqlen : i - t.prepLen < (revFlat0 t.sizes.reverse).length := by
        rw [revFlat0_length]
        exact hq
      have hu : (revFlat0 t.sizes.reverse).getD (i - t.prepLen) 0 < t.sizes.sum := by
        have hmem : (revFlat0 t.sizes.reverse).getD (i - t.prepLen) 0 ∈
            revFlat0 t.sizes.reverse := by
          rw [List.getD_eq_getElem _ _ hqlen]
          exact List.getElem_mem hqlen
        have hlt := revFlat0_lt _ _ hmem
        rwa [List.sum_reverse] at hlt
      have hinner : (List.range' 0 t.prepLen ++
          ((revFlat0 t.sizes.reverse).map fun x => t.prepLen + x) ++
          List.range' (t.prepLen + t.opsLen) t.measLen).getD i 0 =
          t.prepLen + (revFlat0 t.sizes.reverse).getD (i - t.prepLen) 0 := by
        rw [List.getD_append _ _ _ _
            (by rw [List.length_append, List.length_range', hmapR]; omega),
          List.getD_append_right _ _ _ _ (by rw [List.length_range']; omega),
          List.length_range', getD_map_add _ _ _ hqlen]
      rw [hinner]
      have houter : (List.range' 0 t.prepLen ++
          ((revFlat0 t.sizes).map fun x => t.prepLen + x) ++
          List.range' (t.prepLen + t.opsLen) t.measLen).getD
            (t.prepLen + (revFlat0 t.sizes.reverse).getD (i - t.prepLen) 0) 0 =
          t.prepLen + (revFlat0 t.sizes).getD
            ((revFlat0 t.sizes.reverse).getD (i - t.prepLen) 0) 0 := by
        rw [List.getD_append _ _ _ _
            (by rw [List.length_append, List.length_range', hmapL]; omega),
          List.getD_append_right _ _ _ _ (by rw [List.length_range']; omega),
          List.length_range', Nat.add_sub_cancel_left,
          getD_map_add _ _ _ (by rw [revFlat0_length]; exact hu)]
      rw [houter, revFlat0_comp t.sizes (i - t.prepLen) (by omega)]
      omega
    · have h3 : i - (t.prepLen + t.sizes.sum) < t.measLen := by omega
      have hinner : (List.range' 0 t.prepLen ++
          ((revFlat0 t.sizes.reverse).map fun x => t.prepLen + x) ++
          List.range' (t.prepLen + t.opsLen) t.measLen).getD i 0 = i := by
        rw [List.getD_append_right _ _ _ _
            (by rw [List.length_append, List.length_range', hmapR]; omega),
          List.length_append, List.length_range', hmapR,
          getD_range'_of_lt _ _ _ (by omega)]
        rw [opsLen_eq_sum]
        omega
      rw [hinner, List.getD_append_right _ _ _ _
          (by rw [List.length_append, List.length_range', hmapL]; omega),
        List.length_append, List.length_range', hmapL,
        getD_range'_of_lt _ _ _ (by omega)]
      rw [opsLen_eq_sum]
      omega

lemma getD_map_nat_param (g : Nat → Param) (L : List Nat) (i : Nat)
    (hi : i < L.length) (d : Param) : (L.map g).getD i d = g (L.getD i 0) := by
  rw [List.getD_eq_getElem _ _ (by rw [List.length_map]; exact hi),
    List.getElem_map, List.getD_eq_getElem _ _ hi]

lemma map_getD_range_pre (A rest : List Param) :
    (List.range' 0 A.length).map (fun j => (A ++ rest).getD j (Param.scalar 0)) = A := by
  apply List.ext_getElem
  · rw [List.length_map, List.length_range']
  · intro i h1 h2
    rw [List.getElem_map, List.getElem_range']
    have hi : 0 + 1 * i < A.length := by omega
    rw [List.getD_append _ _ _ _ hi, List.getD_eq_getElem _ _ hi]
    congr 1
    omega

lemma map_getD_range_post (pre C : List Param) :
    (List.range' pre.length C.length).map
      (fun j => (pre ++ C).getD j (Param.scalar 0)) = C := by
  apply List.ext_getElem
  · rw [List.length_map, List.length_range']
  · intro i h1 h2
    rw [List.getElem_map, List.getElem_range']
    have h2' : i < C.length := by
      rwa [List.length_map, List.length_range'] at h1
    rw [List.getD_append_right _ _ _ _ (by omega), Nat.one_mul,
      Nat.add_sub_cancel_left, List.getD_eq_getElem _ _ h2']

lemma map_getD_idxBlocks :
    ∀ (blocks : List (List Param)) (pre post : List Param),
      (idxBlocks pre.length (blocks.map List.length)).map
        (List.map fun j => (pre ++ blocks.flatten ++ post).getD j (Param.scalar 0)) =
      blocks := by
  intro blocks
  induction blocks with
  | nil =>
    intro pre post
    rfl
  | cons b bs ih =>
    intro pre post
    have hlist : pre ++ (b :: bs).flatten ++ post = (pre ++ b) ++ bs.flatten ++ post := by
      rw [List.flatten_cons, ← List.append_assoc]
    simp only [List.map_cons, idxBlocks, List.map_cons]
    congr 1
    · apply List.ext_getElem
      · rw [List.length_map, List.length_range']
      · intro i h1 h2
        rw [List.getElem_map, List.getElem_range']
        have h2' : i < b.length := by
          rwa [List.length_map, List.length_range'] at h1
        have hfl : pre.length + 1 * i < (pre ++ (b :: bs).flatten).length := by
          rw [List.length_append, List.flatten_cons, List.length_append]
          omega
        rw [List.getD_append _ _ _ _ hfl,
          List.getD_append_right _ _ _ _ (by omega), Nat.one_mul,
          Nat.add_sub_cancel_left, List.flatten_cons,
          List.getD_append _ _ _ _ h2', List.getD_eq_getElem _ _ h2']
    · have hoff : pre.length + b.length = (pre ++ b).length := by
        rw [List.length_append]
      simp only [hlist, hoff]
      exact ih (pre ++ b) post

lemma inv_allParams (t : QuantumTape) :
    t.inv.allParams = t.invIndices.map fun j => t.allParams.getD j (Param.scalar 0) := by
  unfold QuantumTape.invIndices
  rw [List.map_append, List.map_append]
  have hassoc : t.allParams = (t.prep.map Operation.data).flatten ++
      ((t.ops.map Operation.data).flatten ++
        (t.meas.map MeasurementProcess.parData).flatten) := by
    rw [allParams_decomp, List.append_assoc]
  have e1 : (List.range' 0 t.prepLen).map
      (fun j => t.allParams.getD j (Param.scalar 0)) =
      (t.prep.map Operation.data).flatten := by
    rw [prepLen_eq]
    simp only [hassoc]
    exact map_getD_range_pre _ _
  have e3 : (List.range' (t.prepLen + t.opsLen) t.measLen).map
      (fun j => t.allParams.getD j (Param.scalar 0)) =
      (t.meas.map MeasurementProcess.parData).flatten := by
    have hlen : t.prepLen + t.opsLen =
        ((t.prep.map Operation.data).flatten ++
          (t.ops.map Operation.data).flatten).length := by
      rw [List.length_append]
      rfl
    have hC : t.measLen = (t.meas.map MeasurementProcess.parData).flatten.length := rfl
    rw [hlen, hC]
    have hassoc2 : t.allParams = ((t.prep.map Operation.data).flatten ++
        (t.ops.map Operation.data).flatten) ++
        (t.meas.map MeasurementProcess.parData).flatten := allParams_decomp t
    simp only [hassoc2]
    exact map_getD_range_post _ _
  have e2 : (((idxBlocks t.prepLen t.sizes).reverse).flatten).map
      (fun j => t.allParams.getD j (Param.scalar 0)) =
      ((t.ops.map Operation.data).reverse).flatten := by
    rw [List.map_flatten, List.map_reverse]
    have hsz : t.sizes = (t.ops.map Operation.data).map List.length := by
      unfold QuantumTape.sizes
      rw [List.map_map]
      rfl
    have hP : t.prepLen = (t.prep.map Operation.data).flatten.length := rfl
    have hblocks : (idxBlocks t.prepLen t.sizes).map
        (List.map fun j => t.allParams.getD j (Param.scalar 0)) =
        t.ops.map Operation.data := by
      rw [hsz, hP]
      have hfull : t.allParams = (t.prep.map Operation.data).flatten ++
          (t.ops.map Operation.data).flatten ++
          (t.meas.map MeasurementProcess.parData).flatten := allParams_decomp t
      simp only [hfull]
      exact map_getD_idxBlocks (t.ops.map Operation.data)
        (t.prep.map Operation.data).flatten
        (t.meas.map MeasurementProcess.parData).flatten
    rw [hblocks]
  rw [e1, e2, e3]
  rw [allParams_decomp t.inv, inv_prep, inv_meas, inv_ops]
  have hopsdata : ((t.ops.map Operation.flipInverse).reverse).map Operation.data =
      (t.ops.map Operation.data).reverse := by
    rw [← List.map_reverse, List.map_map, ← List.map_reverse]
    rfl
  rw [hopsdata]

lemma inv_allParams_length (t : QuantumTape) :
    t.inv.allParams.length = t.allParams.length := by
  rw [inv_allParams, List.length_map, invIndices_length]

lemma invMap_lt (t : QuantumTape) (i : Nat) (hi : i < t.allParams.length) :
    t.invMap i < t.allParams.length := by
  unfold QuantumTape.invMap
  have h := List.indexOf_lt_length.2 (invIndices_mem t i hi)
  rwa [invIndices_length] at h

lemma getD_invMap (t : QuantumTape) (i : Nat) (hi : i < t.allParams.length) :
    t.invIndices.getD (t.invMap i) 0 = i := by
  unfold QuantumTape.invMap
  have hlt := List.indexOf_lt_length.2 (invIndices_mem t i hi)
  rw [List.getD_eq_getElem _ _ hlt]
  exact List.getElem_indexOf hlt

lemma inv_allParams_at (t : QuantumTape) (i : Nat) (hi : i < t.allParams.length) :
    t.inv.allParams.getD (t.invMap i) (Param.scalar 0) =
      t.allParams.getD i (Param.scalar 0) := by
  rw [inv_allParams]
  have hlt : t.invMap i < t.invIndices.length := by
    rw [invIndices_length]
    exact invMap_lt t i hi
  rw [getD_map_nat_param _ _ _ hlt, getD_invMap t i hi]

lemma invMap_invMap (t : QuantumTape) (i : Nat) (hi : i < t.allParams.length) :
    t.inv.invMap (t.invMap i) = i := by
  have hn' : t.inv.allParams.length = t.allParams.length := inv_allParams_length t
  have hiL' : i < t.inv.invIndices.length := by
    rw [invIndices_length, hn']
    exact hi
  have hkey : t.inv.invIndices.getD i 0 = t.invMap i := by
    have hmem' : t.inv.invIndices.getD i 0 ∈ t.inv.invIndices := by
      rw [List.getD_eq_getElem _ _ hiL']
      exact List.getElem_mem hiL'
    have hb1 : t.inv.invIndices.getD i 0 < t.invIndices.length := by
      have hlt := invIndices_lt t.inv _ hmem'
      rw [hn'] at hlt
      rwa [invIndices_length]
    have hb2 : t.invMap i < t.invIndices.length := by
      rw [invIndices_length]
      exact invMap_lt t i hi
    have he1 : t.invIndices.getD (t.inv.invIndices.getD i 0) 0 = i :=
      invIndices_comp t i hi
    have he2 : t.invIndices.getD (t.invMap i) 0 = i := getD_invMap t i hi
    rw [List.getD_eq_getElem _ _ hb1] at he1
    rw [List.getD_eq_getElem _ _ hb2] at he2
    exact ((invIndices_nodup t).getElem_inj_iff).1 (he1.trans he2.symm)
  show t.inv.invIndices.indexOf (t.invMap i) = i
  rw [← hkey, List.getD_eq_getElem _ _ hiL']
  exact List.indexOf_getElem (invIndices_nodup t.inv) i hiL'

lemma insertionSort_eq_of_perm (l l' : List Nat) (h : l.Perm l') :
    List.insertionSort (· ≤ ·) l = List.insertionSort (· ≤ ·) l' :=
  List.eq_of_perm_of_sorted
    ((List.perm_insertionSort _ l).trans (h.trans (List.perm_insertionSort _ l').symm))
    (List.sorted_insertionSort _ l) (List.sorted_insertionSort _ l')

lemma insertionSort_eq_self (l : List Nat) (h : List.Sorted (· ≤ ·) l) :
    List.insertionSort (· ≤ ·) l = l :=
  List.eq_of_perm_of_sorted (List.perm_insertionSort _ l)
    (List.sorted_insertionSort _ l) h

lemma inv_inv_ops (t : QuantumTape) : t.inv.inv.ops = t.ops := by
  rw [inv_ops, inv_ops, ← List.map_reverse, List.reverse_reverse, List.map_map]
  have h : t.ops.map (Operation.flipInverse ∘ Operation.flipInverse) = t.ops.map id :=
    List.map_congr_left fun o _ => flip_flip o
  rw [h, List.map_id]

lemma inv_inv_allParams (t : QuantumTape) : t.inv.inv.allParams = t.allParams := by
  rw [allParams_decomp, allParams_decomp t, inv_inv_ops]
  rfl

lemma inv_inv_trainable (t : QuantumTape) (hWF : t.WF) :
    t.inv.inv.trainable = t.trainable := by
  rw [inv_trainable, inv_trainable]
  have h1 : List.insertionSort (· ≤ ·)
      ((List.insertionSort (· ≤ ·) (t.trainable.map t.invMap)).map t.inv.invMap) =
      List.insertionSort (· ≤ ·) ((t.trainable.map t.invMap).map t.inv.invMap) :=
    insertionSort_eq_of_perm _ _
      ((List.perm_insertionSort _ (t.trainable.map t.invMap)).map t.inv.invMap)
  rw [h1, List.map_map]
  have h2 : t.trainable.map (t.inv.invMap ∘ t.invMap) = t.trainable.map id :=
    List.map_congr_left fun i hi => invMap_invMap t i (hWF.2 i hi)
  rw [h2, List.map_id]
  exact insertionSort_eq_self _ (hWF.1.imp fun h => le_of_lt h)

/-- Claim C5: for every well-formed finalized tape, a single `inv()` leaves
preparations and measurements in place and reverses the general operations
(inverting each in place), while the trainable indices are remapped through
the parameter permutation so that each trainable slot keeps its physical
parameter value and the trainable parameter multiset is preserved; calling
`inv()` twice restores the original operation order, the original trainable
set, and the original `get_parameters()` results. -/
theorem C5_inversion (t : QuantumTape) (hWF : t.WF) :
    (t.inv.prep = t.prep ∧ t.inv.meas = t.meas ∧
      t.inv.ops = (t.ops.map Operation.flipInverse).reverse) ∧
    (t.inv.trainable = List.insertionSort (· ≤ ·) (t.trainable.map t.invMap) ∧
      (∀ i ∈ t.trainable, t.inv.allParams.getD (t.invMap i) (Param.scalar 0) =
        t.allParams.getD i (Param.scalar 0)) ∧
      (t.inv.get_parameters true).Perm (t.get_parameters true)) ∧
    (t.inv.inv.prep = t.prep ∧ t.inv.inv.ops = t.ops ∧ t.inv.inv.meas = t.meas ∧
      t.inv.inv.trainable = t.trainable ∧
      t.inv.inv.get_parameters true = t.get_parameters true ∧
      t.inv.inv.get_parameters false = t.get_parameters false) := by
  refine ⟨⟨rfl, rfl, rfl⟩, ⟨rfl, ?_, ?_⟩, ⟨rfl, inv_inv_ops t, rfl, inv_inv_trainable t hWF, ?_, ?_⟩⟩
  · intro i hi
    exact inv_allParams_at t i (hWF.2 i hi)
  · show ((t.inv.trainable).map fun i => t.inv.allParams.getD i (Param.scalar 0)).Perm
      ((t.trainable).map fun i => t.allParams.getD i (Param.scalar 0))
    rw [inv_trainable]
    have hperm : ((List.insertionSort (· ≤ ·) (t.trainable.map t.invMap)).map
        fun i => t.inv.allParams.getD i (Param.scalar 0)).Perm
        ((t.trainable.map t.invMap).map
          fun i => t.inv.allParams.getD i (Param.scalar 0)) :=
      (List.perm_insertionSort _ _).map _
    have heq : (t.trainable.map t.invMap).map
        (fun i => t.inv.allParams.getD i (Param.scalar 0)) =
        t.trainable.map fun i => t.allParams.getD i (Param.scalar 0) := by
      rw [List.map_map]
      exact List.map_congr_left fun i hi => inv_allParams_at t i (hWF.2 i hi)
    rw [heq] at hperm
    exact hperm
  · show ((t.inv.inv.trainable).map
        fun i => t.inv.inv.allParams.getD i (Param.scalar 0)) =
      ((t.trainable).map fun i => t.allParams.getD i (Param.scalar 0))
    rw [inv_inv_trainable t hWF, inv_inv_allParams]
  · show ((List.range t.inv.inv.allParams.length).map
        fun i => t.inv.inv.allParams.getD i (Param.scalar 0)) =
      ((List.range t.allParams.length).map
        fun i => t.allParams.getD i (Param.scalar 0))
    rw [inv_inv_allParams]

/-- A concrete finalized tape fixture for the inversion claim: one
preparation, three operations (four parameters in total across them), one
measurement, trainable indices one and two. -/
def tapeInvW : QuantumTape :=
  { prep := [opBasisState], ops := [opRX, opRot, opCNOT], meas := [mpExpZ],
    trainable := [1, 2] }

/-- Claim C5 (witness): the theorem applied to the concrete fixture. -/
theorem C5_inversion_witness :
    tapeInvW.inv.ops = (tapeInvW.ops.map Operation.flipInverse).reverse ∧
    (tapeInvW.inv.get_parameters true).Perm (tapeInvW.get_parameters true) ∧
    tapeInvW.inv.inv.trainable = tapeInvW.trainable ∧
    tapeInvW.inv.inv.get_parameters false = tapeInvW.get_parameters false :=
  ⟨(C5_inversion tapeInvW (by decide)).1.2.2,
   (C5_inversion tapeInvW (by decide)).2.1.2.2,
   (C5_inversion tapeInvW (by decide)).2.2.2.2.2.1,
   (C5_inversion tapeInvW (by decide)).2.2.2.2.2.2.2⟩

lemma set_get_self {α : Type} (l : List α) (i : Nat) (h : i < l.length) :
    l.set i (l.get ⟨i, h⟩) = l := by
  apply List.ext_getElem
  · simp
  · intro j h1 h2
    rw [List.getElem_set]
    split
    · next he =>
      subst he
      rfl
    · rfl

/-- The rational remainder `q mod p` (the Python float `%` on exact
rationals): `q - p * floor (q / p)`. -/
def ratMod (q p : ℚ) : ℚ := q - p * ⌊q / p⌋

/-- The single-qubit rotation gate families whose parameters the hash
canonicalises modulo two pi. -/
def singleQubitRotations : List String := ["RX", "RY", "RZ", "PhaseShift", "Rot"]

/-- The controlled-rotation gate families whose parameters the hash
canonicalises modulo four pi. -/
def controlledRotations : List String := ["CRX", "CRY", "CRZ", "CRot"]

/-- Reduce a parameter modulo a period (broadcast over array entries, as the
float modulus broadcasts). -/
def Param.modP (p : ℚ) : Param → Param
  | .scalar q => .scalar (ratMod q p)
  | .array qs => .array (qs.map fun q => ratMod q p)

/-- Modelled from the spec: the canonicalised data entering an operation's
hash — parameters of single-qubit rotation gates reduced modulo two pi,
controlled-rotation parameters modulo four pi, all other data kept raw.
Scalars are measured in units of pi, so the periods are the rationals two
and four. -/
def Operation.processData (o : Operation) : List Param :=
  if o.name ∈ singleQubitRotations then o.data.map (Param.modP 2)
  else if o.name ∈ controlledRotations then o.data.map (Param.modP 4)
  else o.data

/-- Modelled from the spec: an operation's hash fingerprint — its name,
wire targets and canonicalised data (the Python integer hash of this tuple
is modelled by the tuple itself). -/
def Operation.fingerprint (o : Operation) :
    String × List WireLabel × List Param :=
  (o.name, o.wires, o.processData)

/-- An entry of the flattened tape hash fingerprint. -/
inductive FpEntry where
  | opH (f : String × List WireLabel × List Param)
  | mH (f : String × List WireLabel × List Param × ObservableReturnTypes)
  | tr (n : Nat)
deriving DecidableEq, Repr

/-- Modelled from the spec: the tape hash (spec section 4.3, structural
hash) — the fingerprint collects the hash of every operation (preparations
included) in order, the hash of every measurement, and the trainable
parameter indices; the Python hash of that tuple is modelled by the tuple
itself. -/
def QuantumTape.hashFp (t : QuantumTape) : List FpEntry :=
  (t.operations.map fun o => FpEntry.opH o.fingerprint) ++
    (t.meas.map fun m => FpEntry.mH m.fingerprint) ++
    t.trainable.map FpEntry.tr

lemma opH_inj : Function.Injective FpEntry.opH := by
  intro a b h
  injection h

lemma mH_inj : Function.Injective FpEntry.mH := by
  intro a b h
  injection h

lemma trEntry_inj : Function.Injective FpEntry.tr := by
  intro a b h
  injection h

lemma hashFp_segments (t1 t2 : QuantumTape) (hp : t1.prep = t2.prep)
    (hlen : t1.ops.length = t2.ops.length) (hm : t1.meas.length = t2.meas.length)
    (h : t1.hashFp = t2.hashFp) :
    t1.ops.map Operation.fingerprint = t2.ops.map Operation.fingerprint ∧
    t1.meas.map MeasurementProcess.fingerprint =
      t2.meas.map MeasurementProcess.fingerprint ∧
    t1.trainable = t2.trainable := by
  unfold QuantumTape.hashFp QuantumTape.operations at h
  have hXY := List.append_inj h (by
    rw [List.length_append, List.length_append, List.length_map, List.length_map,
      List.length_map, List.length_map, List.length_append, List.length_append,
      hp, hlen, hm])
  have hX := List.append_inj hXY.1 (by
    rw [List.length_map, List.length_map, List.length_append, List.length_append,
      hp, hlen])
  refine ⟨?_, ?_, ?_⟩
  · have h1 : (t1.prep ++ t1.ops).map (fun o => FpEntry.opH o.fingerprint) =
        (t2.prep ++ t2.ops).map (fun o => FpEntry.opH o.fingerprint) := hX.1
    rw [show (fun o : Operation => FpEntry.opH o.fingerprint) =
        FpEntry.opH ∘ Operation.fingerprint from rfl, ← List.map_map,
      ← List.map_map] at h1
    have h2 := (List.map_injective_iff.2 opH_inj) h1
    rw [List.map_append, List.map_append] at h2
    exact (List.append_inj h2 (by rw [List.length_map, List.length_map, hp])).2
  · have h1 : t1.meas.map (fun m => FpEntry.mH m.fingerprint) =
        t2.meas.map (fun m => FpEntry.mH m.fingerprint) := hX.2
    rw [show (fun m : MeasurementProcess => FpEntry.mH m.fingerprint) =
        FpEntry.mH ∘ MeasurementProcess.fingerprint from rfl, ← List.map_map,
      ← List.map_map] at h1
    exact (List.map_injective_iff.2 mH_inj) h1
  · exact (List.map_injective_iff.2 trEntry_inj) hXY.2

lemma hashFp_set_op_eq (t : QuantumTape) (i : Nat) (o' : Operation)
    (hi : i < t.ops.length)
    (hfp : o'.fingerprint = (t.ops.get ⟨i, hi⟩).fingerprint) :
    QuantumTape.hashFp { t with ops := t.ops.set i o' } = t.hashFp := by
  unfold QuantumTape.hashFp QuantumTape.operations
  dsimp only
  congr 2
  rw [List.map_append, List.map_append]
  congr 1
  rw [List.map_set, hfp]
  have hmlen : i < (t.ops.map fun o => FpEntry.opH o.fingerprint).length := by
    rw [List.length_map]
    exact hi
  have hgm : FpEntry.opH (Operation.fingerprint (t.ops.get ⟨i, hi⟩)) =
      (t.ops.map fun o => FpEntry.opH o.fingerprint).get ⟨i, hmlen⟩ := by
    rw [List.get_eq_getElem, List.get_eq_getElem, List.getElem_map]
  rw [hgm]
  exact set_get_self _ i hmlen

lemma hashFp_set_op_ne (t : QuantumTape) (i : Nat) (o' : Operation)
    (hi : i < t.ops.length)
    (hfp : o'.fingerprint ≠ (t.ops.get ⟨i, hi⟩).fingerprint) :
    QuantumTape.hashFp { t with ops := t.ops.set i o' } ≠ t.hashFp := by
  intro h
  have hseg := hashFp_segments { t with ops := t.ops.set i o' } t rfl
    (by dsimp only; rw [List.length_set]) rfl h
  have hmaps : (t.ops.map Operation.fingerprint).set i o'.fingerprint =
      t.ops.map Operation.fingerprint := by
    have h1 := hseg.1
    dsimp only at h1
    rwa [List.map_set] at h1
  have hmlen : i < (t.ops.map Operation.fingerprint).length := by
    rw [List.length_map]
    exact hi
  have hat : ((t.ops.map Operation.fingerprint).set i o'.fingerprint)[i]? =
      (t.ops.map Operation.fingerprint)[i]? := by
    rw [hmaps]
  rw [List.getElem?_set_self hmlen, List.getElem?_eq_getElem hmlen,
    List.getElem_map] at hat
  have heq := Option.some.inj hat
  exact hfp (by rw [heq, List.get_eq_getElem])

lemma hashFp_set_meas_ne (t : QuantumTape) (i : Nat) (m' : MeasurementProcess)
    (hi : i < t.meas.length)
    (hfp : m'.fingerprint ≠ (t.meas.get ⟨i, hi⟩).fingerprint) :
    QuantumTape.hashFp { t with meas := t.meas.set i m' } ≠ t.hashFp := by
  intro h
  have hseg := hashFp_segments { t with meas := t.meas.set i m' } t rfl rfl
    (by dsimp only; rw [List.length_set]) h
  have hmaps : (t.meas.map MeasurementProcess.fingerprint).set i m'.fingerprint =
      t.meas.map MeasurementProcess.fingerprint := by
    have h1 := hseg.2.1
    dsimp only at h1
    rwa [List.map_set] at h1
  have hmlen : i < (t.meas.map MeasurementProcess.fingerprint).length := by
    rw [List.length_map]
    exact hi
  have hat : ((t.meas.map MeasurementProcess.fingerprint).set i m'.fingerprint)[i]? =
      (t.meas.map MeasurementProcess.fingerprint)[i]? := by
    rw [hmaps]
  rw [List.getElem?_set_self hmlen, List.getElem?_eq_getElem hmlen,
    List.getElem_map] at hat
  have heq := Option.some.inj hat
  exact hfp (by rw [heq, List.get_eq_getElem])

lemma hashFp_trainable_ne (t : QuantumTape) (tr' : List Nat)
    (htr : tr' ≠ t.trainable) :
    QuantumTape.hashFp { t with trainable := tr' } ≠ t.hashFp := by
  intro h
  have hseg := hashFp_segments { t with trainable := tr' } t rfl rfl rfl h
  exact htr hseg.2.2

lemma ratMod_add_int_mul (q p : ℚ) (k : ℤ) (hp : p ≠ 0) :
    ratMod (q + p * k) p = ratMod q p := by
  unfold ratMod
  have hdiv : (q + p * k) / p = q / p + k := by
    field_simp
    ring
  rw [hdiv, Int.floor_add_int]
  push_cast
  ring

lemma modP_scalar_period (p q : ℚ) (k : ℤ) (hp : p ≠ 0) :
    Param.modP p (Param.scalar (q + p * k)) = Param.modP p (Param.scalar q) := by
  simp [Param.modP, ratMod_add_int_mul q p k hp]

lemma controlled_not_single (s : String) (hs : s ∈ controlledRotations) :
    s ∉ singleQubitRotations := by
  fin_cases hs <;> decide

def Operation.setParam (o : Operation) (j : Nat) (v : Param) : Operation :=
  { o with data := o.data.set j v }

def Operation.setWires (o : Operation) (w : List WireLabel) : Operation :=
  { o with wires := w }

def MeasurementProcess.setObs (m : MeasurementProcess) (o : Obs) : MeasurementProcess :=
  { m with obs := some o }

def MeasurementProcess.setReturnType (m : MeasurementProcess)
    (rt : ObservableReturnTypes) : MeasurementProcess :=
  { m with return_type := rt }

def QuantumTape.setOp (t : QuantumTape) (i : Nat) (o : Operation) : QuantumTape :=
  { t with ops := t.ops.set i o }

def QuantumTape.setMeas (t : QuantumTape) (i : Nat)
    (m : MeasurementProcess) : QuantumTape :=
  { t with meas := t.meas.set i m }

def QuantumTape.setTrainable (t : QuantumTape) (tr : List Nat) : QuantumTape :=
  { t with trainable := tr }

lemma processData_single_rot (o : Operation) (j : Nat) (hj : j < o.data.length)
    (q : ℚ) (k : ℤ) (hname : o.name ∈ singleQubitRotations)
    (hval : o.data.get ⟨j, hj⟩ = Param.scalar q) :
    Operation.processData (o.setParam j (Param.scalar (q + 2 * k))) =
      o.processData := by
  unfold Operation.setParam Operation.processData
  dsimp only
  rw [if_pos hname, if_pos hname, List.map_set, modP_scalar_period 2 q k (by norm_num)]
  have hjm : j < (o.data.map (Param.modP 2)).length := by
    rw [List.length_map]
    exact hj
  have hvm : Param.modP 2 (Param.scalar q) = (o.data.map (Param.modP 2)).get ⟨j, hjm⟩ := by
    rw [List.get_eq_getElem, List.getElem_map]
    rw [show o.data[j] = Param.scalar q from hval]
  rw [hvm]
  exact set_get_self _ j hjm

lemma processData_controlled_rot (o : Operation) (j : Nat) (hj : j < o.data.length)
    (q : ℚ) (k : ℤ) (hname : o.name ∈ controlledRotations)
    (hval : o.data.get ⟨j, hj⟩ = Param.scalar q) :
    Operation.processData (o.setParam j (Param.scalar (q + 4 * k))) =
      o.processData := by
  have hns := controlled_not_single o.name hname
  unfold Operation.setParam Operation.processData
  dsimp only
  rw [if_neg hns, if_neg hns, if_pos hname, if_pos hname, List.map_set,
    modP_scalar_period 4 q k (by norm_num)]
  have hjm : j < (o.data.map (Param.modP 4)).length := by
    rw [List.length_map]
    exact hj
  have hvm : Param.modP 4 (Param.scalar q) = (o.data.map (Param.modP 4)).get ⟨j, hjm⟩ := by
    rw [List.get_eq_getElem, List.getElem_map]
    rw [show o.data[j] = Param.scalar q from hval]
  rw [hvm]
  exact set_get_self _ j hjm

lemma fingerprint_single_rot (o : Operation) (j : Nat) (hj : j < o.data.length)
    (q : ℚ) (k : ℤ) (hname : o.name ∈ singleQubitRotations)
    (hval : o.data.get ⟨j, hj⟩ = Param.scalar q) :
    Operation.fingerprint (o.setParam j (Param.scalar (q + 2 * k))) =
      o.fingerprint := by
  unfold Operation.fingerprint
  rw [processData_single_rot o j hj q k hname hval]
  rfl

lemma fingerprint_controlled_rot (o : Operation) (j : Nat) (hj : j < o.data.length)
    (q : ℚ) (k : ℤ) (hname : o.name ∈ controlledRotations)
    (hval : o.data.get ⟨j, hj⟩ = Param.scalar q) :
    Operation.fingerprint (o.setParam j (Param.scalar (q + 4 * k))) =
      o.fingerprint := by
  unfold Operation.fingerprint
  rw [processData_controlled_rot o j hj q k hname hval]
  rfl

/-- Claim C6: two tapes identical except that one rotation-type parameter
differs by an exact integer multiple of the period — two pi for a
single-qubit rotation, four pi for a controlled rotation, parameters
measured in units of pi — have equal hash fingerprints; while changing a
wire target, an observable (name, wires, or data), a return type, the
trainable index set, or a non-periodic parameter value changes the
fingerprint. -/
theorem C6_hash_equivalence :
    (∀ (t : QuantumTape) (i j : Nat) (hi : i < t.ops.length)
        (hj : j < (t.ops.get ⟨i, hi⟩).data.length) (q : ℚ) (k : ℤ),
        (t.ops.get ⟨i, hi⟩).name ∈ singleQubitRotations →
        (t.ops.get ⟨i, hi⟩).data.get ⟨j, hj⟩ = Param.scalar q →
        QuantumTape.hashFp
          (t.setOp i ((t.ops.get ⟨i, hi⟩).setParam j (Param.scalar (q + 2 * k)))) =
          t.hashFp) ∧
    (∀ (t : QuantumTape) (i j : Nat) (hi : i < t.ops.length)
        (hj : j < (t.ops.get ⟨i, hi⟩).data.length) (q : ℚ) (k : ℤ),
        (t.ops.get ⟨i, hi⟩).name ∈ controlledRotations →
        (t.ops.get ⟨i, hi⟩).data.get ⟨j, hj⟩ = Param.scalar q →
        QuantumTape.hashFp
          (t.setOp i ((t.ops.get ⟨i, hi⟩).setParam j (Param.scalar (q + 4 * k)))) =
          t.hashFp) ∧
    (∀ (t : QuantumTape) (i : Nat) (hi : i < t.ops.length) (w : List WireLabel),
        w ≠ (t.ops.get ⟨i, hi⟩).wires →
        QuantumTape.hashFp (t.setOp i ((t.ops.get ⟨i, hi⟩).setWires w)) ≠
          t.hashFp) ∧
    (∀ (t : QuantumTape) (i : Nat) (hi : i < t.meas.length) (o1 o2 : Obs),
        (t.meas.get ⟨i, hi⟩).obs = some o1 →
        (o2.name ≠ o1.name ∨ o2.wires ≠ o1.wires ∨ o2.data ≠ o1.data) →
        QuantumTape.hashFp (t.setMeas i ((t.meas.get ⟨i, hi⟩).setObs o2)) ≠
          t.hashFp) ∧
    (∀ (t : QuantumTape) (i : Nat) (hi : i < t.meas.length)
        (rt : ObservableReturnTypes), rt ≠ (t.meas.get ⟨i, hi⟩).return_type →
        QuantumTape.hashFp (t.setMeas i ((t.meas.get ⟨i, hi⟩).setReturnType rt)) ≠
          t.hashFp) ∧
    (∀ (t : QuantumTape) (tr : List Nat), tr ≠ t.trainable →
        QuantumTape.hashFp (t.setTrainable tr) ≠ t.hashFp) ∧
    (∀ (t : QuantumTape) (i j : Nat) (hi : i < t.ops.length)
        (hj : j < (t.ops.get ⟨i, hi⟩).data.length) (v : Param),
        (t.ops.get ⟨i, hi⟩).name ∉ singleQubitRotations →
        (t.ops.get ⟨i, hi⟩).name ∉ controlledRotations →
        v ≠ (t.ops.get ⟨i, hi⟩).data.get ⟨j, hj⟩ →
        QuantumTape.hashFp (t.setOp i ((t.ops.get ⟨i, hi⟩).setParam j v)) ≠
          t.hashFp) := by
  refine ⟨?_, ?_, ?_, ?_, ?_, ?_, ?_⟩
  · intro t i j hi hj q k hname hval
    exact hashFp_set_op_eq t i _ hi (fingerprint_single_rot _ j hj q k hname hval)
  · intro t i j hi hj q k hname hval
    exact hashFp_set_op_eq t i _ hi (fingerprint_controlled_rot _ j hj q k hname hval)
  · intro t i hi w hw
    apply hashFp_set_op_ne t i _ hi
    intro heq
    simp only [Operation.setWires, Operation.fingerprint, Prod.mk.injEq] at heq
    exact hw heq.2.1
  · intro t i hi o1 o2 hobs hdiff
    apply hashFp_set_meas_ne t i _ hi
    intro heq
    simp only [MeasurementProcess.setObs, MeasurementProcess.fingerprint,
      MeasurementProcess.wires, hobs, Prod.mk.injEq] at heq
    rcases hdiff with hd | hd | hd
    · exact hd heq.1
    · exact hd heq.2.1
    · exact hd heq.2.2.1
  · intro t i hi rt hrt
    apply hashFp_set_meas_ne t i _ hi
    intro heq
    cases hobs : (t.meas.get ⟨i, hi⟩).obs with
    | none =>
      simp only [MeasurementProcess.setReturnType, MeasurementProcess.fingerprint,
        MeasurementProcess.wires, hobs, Prod.mk.injEq] at heq
      exact hrt heq.2.2.2
    | some o =>
      simp only [MeasurementProcess.setReturnType, MeasurementProcess.fingerprint,
        MeasurementProcess.wires, hobs, Prod.mk.injEq] at heq
      exact hrt heq.2.2.2
  · intro t tr htr
    exact hashFp_trainable_ne t tr htr
  · intro t i j hi hj v hns hnc hv
    apply hashFp_set_op_ne t i _ hi
    intro heq
    simp only [Operation.setParam, Operation.fingerprint, Operation.processData,
      Prod.mk.injEq] at heq
    rw [if_neg hns, if_neg hns, if_neg hnc, if_neg hnc] at heq
    have hdata := heq.2.2
    have hat : ((t.ops.get ⟨i, hi⟩).data.set j v)[j]? =
        ((t.ops.get ⟨i, hi⟩).data)[j]? := by
      rw [hdata]
    rw [List.getElem?_set_self (by simpa using hj),
      List.getElem?_eq_getElem hj] at hat
    have hveq := Option.some.inj hat
    exact hv hveq

/-- Claim C6 (witness): shifting the RX angle of a concrete tape by three
full periods (six pi-units) leaves the hash fingerprint unchanged, while
changing the trainable set changes it. -/
theorem C6_hash_equivalence_witness :
    QuantumTape.hashFp
        (tapeInvW.setOp 0 (opRX.setParam 0 (Param.scalar (1 / 2 + 2 * ((3 : ℤ) : ℚ))))) =
      tapeInvW.hashFp ∧
    QuantumTape.hashFp (tapeInvW.setTrainable [0]) ≠ tapeInvW.hashFp :=
  ⟨C6_hash_equivalence.1 tapeInvW 0 0 (by decide) (by decide) (1 / 2) 3 (by decide) rfl,
   C6_hash_equivalence.2.2.2.2.2.1 tapeInvW [0] (by decide)⟩
